import Mathlib

/-!
# Temperature history ring buffer of `apps/nano2_ble_temp/src/gatt_svr.c`

A shallow embedding of the sampler (`temp_read`, `get_temp_measurement`,
`queue_temp_read`, `temp_reader_init`), of the reader
(`gatt_svr_chr_access_temp`) and of the service registration (`gatt_svr_init`),
together with the properties of the circular history buffer that sampler and
reader share.

Modelling conventions.

* A C `int` is an `Int` kept in the 32-bit two's complement range by `wrap32`;
  `&` on `int` is `and32`, the bitwise AND of the two 32-bit patterns.
* `temp_history` is an array of 16 `int16_t`: a function on `Fin 16`.  An
  access with an index outside `[0,16)` has no defined behaviour in C and is
  the fault `out_of_bounds` here.
* `assert` halts the program: a failed assertion is the fault `assert_failed`.
* The spin-wait on the hardware's data-ready flag is run with a fuel bound;
  `out_of_fuel` is the only fault that is an artefact of the model.
* Calls to `LOG` only print to the console and are left out.
* The sampler records what it does to its collaborators and to the shared
  variables as a list of `Effect`s in program order.
* A run of the system (`system_run`) is the initialisation followed by sampler
  and reader invocations, each run to completion before the next starts.
* A reader invocation with the sampler running in between is
  `gatt_svr_chr_access_temp_interleaved`: the cursor is captured once and
  sampler invocations run to completion between two slot reads.
-/

namespace TempHist

/-! ## Machine integers -/

/-- Reduction of an integer to the 32-bit two's complement range of a C `int`. -/
def wrap32 (x : Int) : Int := (x + 2147483648) % 4294967296 - 2147483648

/-- The C expression `a & b` on two `int`s: bitwise AND of the two 32-bit patterns, read back as a
signed value. -/
def and32 (a b : Int) : Int :=
  wrap32 (Int.ofNat (Nat.land (a % 4294967296).toNat (b % 4294967296).toNat))

/-- The two bytes of an `int16_t` in memory (little-endian, as on the nRF52). -/
def int16_bytes (v : Int) : List Nat := [(v % 256).toNat, ((v / 256) % 256).toNat]

/-- The `int16_t` stored in two consecutive bytes (low byte first). -/
def int16_of_bytes (lo hi : Nat) : Int :=
  if lo + 256 * hi < 32768 then Int.ofNat (lo + 256 * hi) else Int.ofNat (lo + 256 * hi) - 65536

/-- A byte payload read back as consecutive `int16_t` values. -/
def decode_int16s : List Nat → List Int
  | lo :: hi :: rest => int16_of_bytes lo hi :: decode_int16s rest
  | _ => []

/-- Range of `int16_t`. -/
def is_int16 (v : Int) : Prop := -32768 ≤ v ∧ v ≤ 32767

instance (v : Int) : Decidable (is_int16 v) := by unfold is_int16; infer_instance

/-! ## Constants, state and faults -/

/-- Line 30, `#define TEMP_HIST_SIZE (16)`: temperature history buffer size. -/
abbrev TEMP_HIST_SIZE : Nat := 16

/-- Line 32, `#define TEMP_SAMPLING_RATE (10)`, in Hz. -/
def TEMP_SAMPLING_RATE : Int := 10

/-- The ways a run can stop without returning. -/
inductive Fault where
  | assert_failed
  | out_of_bounds
  | unrepresentable
  | out_of_fuel
  deriving DecidableEq, Repr

/-- The two file-scope variables shared by sampler and reader:
`volatile static int temp_queue_head` and
`volatile static int16_t temp_history[TEMP_HIST_SIZE]`. -/
structure State where
  temp_queue_head : Int
  temp_history : Fin TEMP_HIST_SIZE → Int

/-- Evaluation of `temp_history[i]` for an `int` index `i`. -/
def hist_read (hist : Fin TEMP_HIST_SIZE → Int) (i : Int) : Except Fault Int :=
  if h : 0 ≤ i ∧ i < 16 then .ok (hist ⟨i.toNat, by show i.toNat < 16; omega⟩)
  else .error .out_of_bounds

/-- The assignment `temp_history[i] = v` for an `int` index `i`. -/
def hist_write (hist : Fin TEMP_HIST_SIZE → Int) (i : Int) (v : Int) :
    Except Fault (Fin TEMP_HIST_SIZE → Int) :=
  if h : 0 ≤ i ∧ i < 16 then .ok (Function.update hist ⟨i.toNat, by show i.toNat < 16; omega⟩ v)
  else .error .out_of_bounds

/-! ## Sampler -/

/-- What the sampler does to the world outside its own locals, in program order. -/
inductive Effect where
  | callout_init
  | callout_reset (ticks : Int)
  | datardy_poll (ready : Bool)
  | read_raw (raw : Int)
  | tasks_start
  | history_store (slot : Int) (v : Int)
  | head_store (v : Int)
  deriving DecidableEq, Repr

/-- What the collaborators answer during one sampler invocation: the configured tick
rate, the status of `os_callout_reset`, the successive observations of
`NRF_TEMP->EVENTS_DATARDY == TEMP_INTENSET_DATARDY_Set`, and the value of
`nrf_temp_read()`. -/
structure SamplerEnv where
  OS_TICKS_PER_SEC : Int
  reset_rc : Int
  datardy : Nat → Bool
  raw : Int

/-- Collaborators on a run without incident: the timer accepts the re-arm and the
conversion is complete at the first poll. -/
def env_ready (ticks raw : Int) : SamplerEnv :=
  { OS_TICKS_PER_SEC := ticks, reset_rc := 0, datardy := fun _ => true, raw := raw }

/-- Line 82: `while (NRF_TEMP->EVENTS_DATARDY != TEMP_INTENSET_DATARDY_Set) {}`, started at
observation `k`; gives the effects of the polls made. -/
def wait_datardy (datardy : Nat → Bool) : Nat → Nat → Except Fault (List Effect)
  | 0, _ => .error .out_of_fuel
  | fuel + 1, k =>
    if datardy k then .ok [Effect.datardy_poll true]
    else do
      let tr ← wait_datardy datardy fuel (k + 1)
      pure (Effect.datardy_poll false :: tr)

/-- Conversion of a `double` to an integer type in C: the fractional part is discarded. -/
def c_trunc (q : ℚ) : Int := Int.tdiv q.num q.den

/-- Line 85, `temp = (nrf_temp_read() * 100) / 4.0;` for the value `raw` of
`nrf_temp_read()`: the `int` product, the `double` quotient (exact: the dividend is a
32-bit integer and the divisor a power of two), and the conversion to `int16_t`, which is
defined only when the truncated value is in range. -/
def scale_raw (raw : Int) : Except Fault Int :=
  let q : ℚ := ((wrap32 (raw * 100) : Int) : ℚ) / 4
  let t := c_trunc q
  if -32768 ≤ t ∧ t ≤ 32767 then .ok t else .error .unrepresentable

/-- Lines 76-91, `get_temp_measurement`: wait for data-ready, read and scale the raw
value, start the next measurement, return the scaled value. -/
def get_temp_measurement (fuel : Nat) (env : SamplerEnv) :
    Except Fault (Int × List Effect) := do
  let polls ← wait_datardy env.datardy fuel 0
  let temp ← scale_raw env.raw
  pure (temp, polls ++ [Effect.read_raw env.raw, Effect.tasks_start])

/-- Lines 94-102, `queue_temp_read`: re-arm the timer, assert the status is 0. -/
def queue_temp_read (env : SamplerEnv) : Except Fault (List Effect) :=
  if env.reset_rc = 0 then
    .ok [Effect.callout_reset (Int.tdiv env.OS_TICKS_PER_SEC TEMP_SAMPLING_RATE)]
  else .error .assert_failed

/-- Lines 115 and 118 of `temp_read`, for the value `v` returned by
`get_temp_measurement`: `temp_history[temp_queue_head] = v;` then
`temp_queue_head = (temp_queue_head+1) & (TEMP_HIST_SIZE-1);`. -/
def temp_store (s : State) (v : Int) : Except Fault State := do
  let hist ← hist_write s.temp_history s.temp_queue_head v
  pure { temp_history := hist
         temp_queue_head := and32 (wrap32 (s.temp_queue_head + 1)) (TEMP_HIST_SIZE - 1) }

/-- Lines 105-120, `temp_read`: re-arm, measure, store and advance. -/
def temp_read (fuel : Nat) (env : SamplerEnv) (s : State) :
    Except Fault (State × List Effect) := do
  let rearm ← queue_temp_read env
  let (temp, meas) ← get_temp_measurement fuel env
  let s' ← temp_store s temp
  pure (s', rearm ++ meas ++
    [Effect.history_store s.temp_queue_head temp, Effect.head_store s'.temp_queue_head])

/-- Lines 124-140, `temp_reader_init`: reset the cursor, set up and arm the timer, start
the first measurement.  The buffer itself is not touched. -/
def temp_reader_init (env : SamplerEnv) (s : State) :
    Except Fault (State × List Effect) := do
  let s0 : State := { s with temp_queue_head := 0 }
  let rearm ← queue_temp_read env
  pure (s0, [Effect.head_store 0, Effect.callout_init] ++ rearm ++ [Effect.tasks_start])

/-- The store-and-advance of successive sampler invocations, for the measured values
`vs` in order. -/
def temp_store_all (s : State) : List Int → Except Fault State
  | [] => .ok s
  | v :: vs => do
    let s' ← temp_store s v
    temp_store_all s' vs

/-- Successive sampler invocations, one per timer period, each with the answers its
collaborators give in that period; the effects are in program order. -/
def temp_read_all (fuel : Nat) (s : State) : List SamplerEnv → Except Fault (State × List Effect)
  | [] => .ok (s, [])
  | env :: envs => do
    let (s1, t1) ← temp_read fuel env s
    let (s2, t2) ← temp_read_all fuel s1 envs
    pure (s2, t1 ++ t2)

/-! ## Reader -/

/-- Line 155: `index = (index-1) & (TEMP_HIST_SIZE-1);`. -/
def prev_index (index : Int) : Int := and32 (wrap32 (index - 1)) (TEMP_HIST_SIZE - 1)

/-- The values of `index` used by `count` iterations of the loop of lines 153-162. -/
def walk_slots (index : Int) : Nat → List Int
  | 0 => []
  | n + 1 => prev_index index :: walk_slots (prev_index index) n

/-- Lines 153-157 without the append: `count` iterations of stepping `index` back and
reading `temp_history[index]`; gives the values read, in the order read. -/
def walk (hist : Fin TEMP_HIST_SIZE → Int) (index : Int) : Nat → Except Fault (List Int)
  | 0 => .ok []
  | n + 1 => do
    let temp ← hist_read hist (prev_index index)
    let rest ← walk hist (prev_index index) n
    pure (temp :: rest)

/-- The reader's backward walk from the cursor for `count` slots (line 149 followed by
`count` iterations of lines 155-156).  The reader itself fixes `count` at 10. -/
def snapshot (s : State) (count : Nat) : Except Fault (List Int) :=
  walk s.temp_history s.temp_queue_head count

/-- What a completed reader invocation leaves behind: the status returned, the output
buffer `ctxt->om`, and the shared variables. -/
structure ReadResult where
  rc : Int
  om : List Nat
  state : State

/-- Lines 153-162: the remaining `n` iterations of the loop, entered with loop counter
`i`, `index`, `rc` and output buffer `om`.  `append_rc j` is the status of the
`os_mbuf_append` made in iteration `j`; the buffer grows by `sizeof(temp)` bytes when the
status is 0. -/
def access_loop (append_rc : Nat → Int) (s : State) :
    Nat → Nat → Int → Int → List Nat → Except Fault ReadResult
  | 0, _, _, rc, om => .ok { rc := rc, om := om, state := s }
  | n + 1, i, index, _, om => do
    let temp ← hist_read s.temp_history (prev_index index)
    if append_rc i = 0 then
      access_loop append_rc s n (i + 1) (prev_index index) (append_rc i) (om ++ int16_bytes temp)
    else .error .assert_failed

/-- Lines 142-167, `gatt_svr_chr_access_temp`: capture the cursor, run the loop 10 times,
return `rc`.  `rc0` stands for the indeterminate initial value of the local `rc`. -/
def gatt_svr_chr_access_temp (append_rc : Nat → Int) (rc0 : Int) (s : State) (om : List Nat) :
    Except Fault ReadResult :=
  access_loop append_rc s 10 0 s.temp_queue_head rc0 om

/-! ## Service registration -/

/-- Lines 201-217, `gatt_svr_init`, for the statuses the two stack calls would give;
the second component tells whether `ble_gatts_add_svcs` was called. -/
def gatt_svr_init (count_cfg_rc add_svcs_rc : Int) : Int × Bool :=
  if count_cfg_rc ≠ 0 then (count_cfg_rc, false)
  else if add_svcs_rc ≠ 0 then (add_svcs_rc, true)
  else (0, true)

/-! ## Runs of the system -/

/-- One call of a callback by its collaborator: the timer service calling the sampler
`temp_read`, or the protocol stack calling the reader `gatt_svr_chr_access_temp`. -/
inductive Invocation where
  | sampler (env : SamplerEnv)
  | reader (append_rc : Nat → Int) (rc0 : Int) (om : List Nat)

/-- One invocation run to completion on the shared variables; a reader invocation has none
of the sampler effects. -/
def invoke (fuel : Nat) (s : State) : Invocation → Except Fault (State × List Effect)
  | .sampler env => temp_read fuel env s
  | .reader append_rc rc0 om => do
    let res ← gatt_svr_chr_access_temp append_rc rc0 s om
    pure (res.state, [])

/-- Successive invocations, each run to completion before the next starts. -/
def invoke_all (fuel : Nat) (s : State) : List Invocation → Except Fault (State × List Effect)
  | [] => .ok (s, [])
  | inv :: invs => do
    let (s1, t1) ← invoke fuel s inv
    let (s2, t2) ← invoke_all fuel s1 invs
    pure (s2, t1 ++ t2)

/-- The system from start-up: `temp_reader_init` on the variables as they are found, then
the invocations in order. -/
def system_run (fuel : Nat) (env0 : SamplerEnv) (s : State) (invs : List Invocation) :
    Except Fault (State × List Effect) := do
  let (s0, t0) ← temp_reader_init env0 s
  let (s1, t1) ← invoke_all fuel s0 invs
  pure (s1, t0 ++ t1)

/-- The timer re-arms: calls of `os_callout_reset`. -/
def is_callout_reset : Effect → Bool
  | .callout_reset _ => true
  | _ => false

/-- The accesses to the temperature peripheral that matter to a conversion: the raw read
and the start command. -/
def is_conversion_effect : Effect → Bool
  | .read_raw _ => true
  | .tasks_start => true
  | _ => false

/-- The raw reads: calls of `nrf_temp_read`. -/
def is_read_raw : Effect → Bool
  | .read_raw _ => true
  | _ => false

/-- The start commands: writes `NRF_TEMP->TASKS_START = 1`. -/
def is_tasks_start : Effect → Bool
  | .tasks_start => true
  | _ => false

/-- The start command and the write to `temp_history`. -/
def is_start_or_store : Effect → Bool
  | .tasks_start => true
  | .history_store _ _ => true
  | _ => false

/-- The slot and value written, when the effect is a write to `temp_history`. -/
def stored_by : Effect → Option (Int × Int)
  | .history_store slot v => some (slot, v)
  | _ => none

/-- The slot and value of the latest write to `temp_history` in a trace, if there is one. -/
def last_history_store : List Effect → Option (Int × Int)
  | [] => none
  | e :: es =>
    match last_history_store es with
    | some p => some p
    | none => stored_by e

/-- How many of the invocations are sampler invocations. -/
def sampler_count : List Invocation → Nat
  | [] => 0
  | .sampler _ :: invs => sampler_count invs + 1
  | .reader _ _ _ :: invs => sampler_count invs

/-! ## The reader's walk with the sampler running in between -/

/-- The number of positions at which two reports differ. -/
def differing : List Int → List Int → Nat
  | [], _ => 0
  | _ :: _, [] => 0
  | a :: as, b :: bs => (if a = b then 0 else 1) + differing as bs

/-! ## Machine arithmetic -/

theorem wrap32_of_range (x : Int) (h1 : -2147483648 ≤ x) (h2 : x < 2147483648) :
    wrap32 x = x := by
  unfold wrap32; omega

/-- Masking with `TEMP_HIST_SIZE-1` is the remainder modulo 16, for every `int`. -/
theorem and32_mask (x : Int) : and32 x ((TEMP_HIST_SIZE : Int) - 1) = x % 16 := by
  unfold and32
  have h15 : (((TEMP_HIST_SIZE : Int) - 1) % 4294967296).toNat = 2 ^ 4 - 1 := by decide
  rw [h15]
  have hl : Nat.land (x % 4294967296).toNat (2 ^ 4 - 1) = (x % 4294967296).toNat % 2 ^ 4 :=
    Nat.and_pow_two_sub_one_eq_mod _ 4
  rw [hl]
  unfold wrap32
  simp only [Int.ofNat_eq_coe]
  omega

theorem prev_index_eq (index : Int) : prev_index index = wrap32 (index - 1) % 16 := by
  unfold prev_index; exact and32_mask _

theorem prev_index_range (index : Int) : 0 ≤ prev_index index ∧ prev_index index < 16 := by
  rw [prev_index_eq]; omega

theorem prev_index_of_range (index : Int) (h1 : -2147483647 ≤ index)
    (h2 : index ≤ 2147483647) : prev_index index = (index - 1) % 16 := by
  rw [prev_index_eq, wrap32_of_range] <;> omega

/-! ## Array accesses -/

theorem hist_read_ok (hist : Fin TEMP_HIST_SIZE → Int) (i : Int) (h : 0 ≤ i ∧ i < 16) :
    hist_read hist i = .ok (hist ⟨i.toNat, by show i.toNat < 16; omega⟩) := by
  unfold hist_read; rw [dif_pos h]

theorem hist_write_ok (hist : Fin TEMP_HIST_SIZE → Int) (i v : Int) (h : 0 ≤ i ∧ i < 16) :
    hist_write hist i v =
      .ok (Function.update hist ⟨i.toNat, by show i.toNat < 16; omega⟩ v) := by
  unfold hist_write; rw [dif_pos h]

theorem hist_read_update_same (hist : Fin TEMP_HIST_SIZE → Int) (c v : Int)
    (h : 0 ≤ c ∧ c < 16) :
    hist_read (Function.update hist ⟨c.toNat, by show c.toNat < 16; omega⟩ v) c = .ok v := by
  rw [hist_read_ok _ _ h]; simp

theorem hist_read_update_other (hist : Fin TEMP_HIST_SIZE → Int) (c v p : Int)
    (h : 0 ≤ c ∧ c < 16) (hp : 0 ≤ p ∧ p < 16) (hne : p ≠ c) :
    hist_read (Function.update hist ⟨c.toNat, by show c.toNat < 16; omega⟩ v) p =
      hist_read hist p := by
  rw [hist_read_ok _ _ hp, hist_read_ok _ _ hp]
  have hfin : (⟨p.toNat, by show p.toNat < 16; omega⟩ : Fin TEMP_HIST_SIZE) ≠
      ⟨c.toNat, by show c.toNat < 16; omega⟩ := by
    intro heq
    have hval := congrArg Fin.val heq
    simp only at hval
    omega
  rw [Function.update_noteq hfin]

/-! ## Store and advance -/

theorem temp_store_ok (s : State) (v : Int)
    (h : 0 ≤ s.temp_queue_head ∧ s.temp_queue_head < 16) :
    temp_store s v = .ok
      { temp_history := Function.update s.temp_history
          ⟨s.temp_queue_head.toNat, by show s.temp_queue_head.toNat < 16; omega⟩ v
        temp_queue_head := (s.temp_queue_head + 1) % 16 } := by
  unfold temp_store
  rw [hist_write_ok _ _ _ h, and32_mask, wrap32_of_range] <;> first | rfl | omega

theorem temp_store_all_nil (s : State) : temp_store_all s [] = .ok s := by
  rw [temp_store_all]

theorem temp_store_all_cons (s : State) (v : Int) (vs : List Int) :
    temp_store_all s (v :: vs) = (temp_store s v).bind (fun s' => temp_store_all s' vs) := by
  rw [temp_store_all]; rfl

theorem temp_store_all_append (s : State) (xs : List Int) (v : Int) :
    temp_store_all s (xs ++ [v]) = (temp_store_all s xs).bind (fun s' => temp_store s' v) := by
  induction xs generalizing s with
  | nil =>
    rw [List.nil_append, temp_store_all_cons, temp_store_all_nil]
    show (temp_store s v).bind _ = temp_store s v
    cases temp_store s v with
    | error e => rfl
    | ok s1 => exact temp_store_all_nil s1
  | cons x xs ih =>
    rw [List.cons_append, temp_store_all_cons, temp_store_all_cons]
    cases temp_store s x with
    | error e => rfl
    | ok s1 => exact ih s1

/-- Writes never fail from a cursor in range, and move the cursor by their number. -/
theorem temp_store_all_head (vs : List Int) (s : State)
    (h : 0 ≤ s.temp_queue_head ∧ s.temp_queue_head < 16) :
    ∃ s', temp_store_all s vs = .ok s' ∧
      s'.temp_queue_head = (s.temp_queue_head + vs.length) % 16 := by
  induction vs generalizing s with
  | nil => exact ⟨s, temp_store_all_nil s, by simp only [List.length_nil]; omega⟩
  | cons v vs ih =>
    obtain ⟨s', hs', hh⟩ := ih
      { temp_history := Function.update s.temp_history
          ⟨s.temp_queue_head.toNat, by show s.temp_queue_head.toNat < 16; omega⟩ v
        temp_queue_head := (s.temp_queue_head + 1) % 16 } (by simp only; omega)
    refine ⟨s', ?_, ?_⟩
    · rw [temp_store_all_cons, temp_store_ok s v h]; exact hs'
    · rw [hh]; simp only [List.length_cons]; push_cast; omega

/-! ## The backward walk -/

theorem walk_succ (hist : Fin TEMP_HIST_SIZE → Int) (n : Nat) (index : Int) :
    walk hist index (n + 1) =
      (hist_read hist (prev_index index)).bind (fun temp =>
        (walk hist (prev_index index) n).bind (fun rest => .ok (temp :: rest))) := by
  rw [walk]; rfl

/-- The walk never leaves the array: it always yields `count` values. -/
theorem walk_ok (hist : Fin TEMP_HIST_SIZE → Int) (count : Nat) (index : Int) :
    ∃ r, walk hist index count = .ok r ∧ r.length = count := by
  induction count generalizing index with
  | zero => exact ⟨[], by rw [walk], rfl⟩
  | succ n ih =>
    obtain ⟨r, hr, hl⟩ := ih (prev_index index)
    rw [walk_succ, hist_read_ok _ _ (prev_index_range index), hr]
    exact ⟨_, rfl, by simp only [List.length_cons, hl]⟩

/-- The values read are those of the slots listed by `walk_slots`. -/
theorem walk_reads_slots (hist : Fin TEMP_HIST_SIZE → Int) (count : Nat) (index : Int)
    (r : List Int) (h : walk hist index count = .ok r) :
    (walk_slots index count).map (hist_read hist) = r.map Except.ok := by
  induction count generalizing index r with
  | zero =>
    rw [walk] at h
    cases h; rfl
  | succ n ih =>
    obtain ⟨r', hr', _⟩ := walk_ok hist n (prev_index index)
    rw [walk_succ, hist_read_ok _ _ (prev_index_range index), hr'] at h
    cases h
    rw [walk_slots, List.map_cons, ih _ _ hr', hist_read_ok _ _ (prev_index_range index)]
    rfl

/-- Overwriting slot `c` does not change what a walk reads when it starts `k` steps behind
`c` and takes `n` steps with `k + n ≤ 15`. -/
theorem walk_update (hist : Fin TEMP_HIST_SIZE → Int) (c v : Int) (hc : 0 ≤ c ∧ c < 16)
    (n : Nat) (k : Int) (index : Int) (hk : 0 ≤ k) (hkn : k + n ≤ 15)
    (hidx : index = (c - k) % 16) :
    walk (Function.update hist ⟨c.toNat, by show c.toNat < 16; omega⟩ v) index n =
      walk hist index n := by
  induction n generalizing k index with
  | zero => rw [walk, walk]
  | succ n ih =>
    have hp : prev_index index = (c - (k + 1)) % 16 := by
      rw [prev_index_of_range] <;> omega
    have hne : prev_index index ≠ c := by rw [hp]; push_cast at hkn; omega
    rw [walk_succ, walk_succ,
      hist_read_update_other hist c v _ hc (prev_index_range index) hne,
      ih (k + 1) (prev_index index) (by omega) (by push_cast at hkn ⊢; omega) hp]

/-- One more write puts its value in front of what the walk read before. -/
theorem snapshot_after_store (s s' : State) (v : Int) (n : Nat)
    (hc : 0 ≤ s.temp_queue_head ∧ s.temp_queue_head < 16) (hn : n ≤ 15)
    (hs : temp_store s v = .ok s') (r : List Int) (hr : snapshot s n = .ok r) :
    snapshot s' (n + 1) = .ok (v :: r) := by
  rw [temp_store_ok s v hc] at hs
  cases hs
  have hp : prev_index ((s.temp_queue_head + 1) % 16) = s.temp_queue_head := by
    rw [prev_index_of_range] <;> omega
  unfold snapshot at hr ⊢
  simp only
  rw [walk_succ, hp, hist_read_update_same _ _ _ hc,
    walk_update s.temp_history s.temp_queue_head v hc n 0 s.temp_queue_head (le_refl 0)
      (by omega) (by omega), hr]
  rfl

/-- After the writes `vs`, a walk of `n` slots, `n` at most 16 and at most the number of
writes, reads the last `n` values written, latest first. -/
theorem snapshot_after_writes (vs : List Int) (s : State) (n : Nat)
    (hc : 0 ≤ s.temp_queue_head ∧ s.temp_queue_head < 16)
    (hn : n ≤ 16) (hlen : n ≤ vs.length) :
    ∃ s', temp_store_all s vs = .ok s' ∧ snapshot s' n = .ok (vs.reverse.take n) := by
  induction vs using List.reverseRecOn generalizing n with
  | nil =>
    have h0 : n = 0 := by simpa using hlen
    subst h0
    exact ⟨s, temp_store_all_nil s, by unfold snapshot; rw [walk]; rfl⟩
  | append_singleton xs v ih =>
    obtain ⟨s1, hs1, hh1⟩ := temp_store_all_head xs s hc
    have hc1 : 0 ≤ s1.temp_queue_head ∧ s1.temp_queue_head < 16 := by rw [hh1]; omega
    obtain ⟨s2, hs2⟩ : ∃ s2, temp_store s1 v = .ok s2 := ⟨_, temp_store_ok s1 v hc1⟩
    refine ⟨s2, ?_, ?_⟩
    · rw [temp_store_all_append, hs1]; exact hs2
    · cases n with
      | zero => unfold snapshot; rw [walk]; rfl
      | succ m =>
        have hm : m ≤ xs.length := by simpa using hlen
        obtain ⟨s1', hs1', hsnap⟩ := ih m (by omega) hm
        rw [hs1] at hs1'
        cases hs1'
        rw [snapshot_after_store s1 s2 v m hc1 (by omega) hs2 _ hsnap]
        simp

/-! ## Byte payload -/

theorem int16_of_bytes_bytes (v : Int) (h : is_int16 v) :
    int16_of_bytes (v % 256).toNat ((v / 256) % 256).toNat = v := by
  unfold is_int16 at h
  have hlo : (((v % 256).toNat : Nat) : Int) = v % 256 := Int.toNat_of_nonneg (by omega)
  have hhi : ((((v / 256) % 256).toNat : Nat) : Int) = (v / 256) % 256 :=
    Int.toNat_of_nonneg (by omega)
  unfold int16_of_bytes
  simp only [Int.ofNat_eq_coe]
  split
  · next hlt =>
    have hlt' : (((v % 256).toNat + 256 * ((v / 256) % 256).toNat : Nat) : Int) < 32768 := by
      exact_mod_cast hlt
    push_cast at hlt' ⊢
    rw [hlo, hhi] at hlt' ⊢
    omega
  · next hge =>
    have hge' : ¬ (((v % 256).toNat + 256 * ((v / 256) % 256).toNat : Nat) : Int) < 32768 := by
      exact_mod_cast hge
    push_cast at hge' ⊢
    rw [hlo, hhi] at hge' ⊢
    omega

theorem decode_int16s_bytes (l : List Int) (h : ∀ v ∈ l, is_int16 v) :
    decode_int16s (l.flatMap int16_bytes) = l := by
  induction l with
  | nil => rfl
  | cons v l ih =>
    rw [List.flatMap_cons]
    show decode_int16s ((v % 256).toNat :: ((v / 256) % 256).toNat :: l.flatMap int16_bytes) = _
    rw [decode_int16s, int16_of_bytes_bytes v (h v (List.mem_cons_self v l)),
      ih (fun w hw => h w (List.mem_cons_of_mem v hw))]

theorem length_flatMap_int16_bytes (l : List Int) :
    (l.flatMap int16_bytes).length = 2 * l.length := by
  induction l with
  | nil => rfl
  | cons v l ih =>
    rw [List.flatMap_cons, List.length_append, ih, List.length_cons]
    show 2 + 2 * l.length = _
    omega

/-! ## The reader's loop -/

theorem access_loop_zero (append_rc : Nat → Int) (s : State) (i : Nat) (index rc : Int)
    (om : List Nat) :
    access_loop append_rc s 0 i index rc om = .ok { rc := rc, om := om, state := s } := by
  rw [access_loop]

theorem access_loop_succ (append_rc : Nat → Int) (s : State) (n i : Nat) (index rc : Int)
    (om : List Nat) :
    access_loop append_rc s (n + 1) i index rc om =
      (hist_read s.temp_history (prev_index index)).bind (fun temp =>
        if append_rc i = 0 then
          access_loop append_rc s n (i + 1) (prev_index index) (append_rc i)
            (om ++ int16_bytes temp)
        else .error .assert_failed) := by
  rw [access_loop]; rfl

/-- When every append of the remaining iterations succeeds, the loop appends the bytes of
the values the walk reads and leaves the shared variables as they were. -/
theorem access_loop_ok (append_rc : Nat → Int) (s : State) (n i : Nat) (index rc : Int)
    (om : List Nat) (r : List Int) (hr : walk s.temp_history index n = .ok r)
    (happ : ∀ j, j < n → append_rc (i + j) = 0) :
    access_loop append_rc s n i index rc om =
      .ok { rc := if n = 0 then rc else 0, om := om ++ r.flatMap int16_bytes, state := s } := by
  induction n generalizing i index rc om r with
  | zero =>
    rw [walk] at hr
    cases hr
    rw [access_loop_zero]
    simp
  | succ n ih =>
    obtain ⟨r', hr', _⟩ := walk_ok s.temp_history n (prev_index index)
    rw [walk_succ, hist_read_ok _ _ (prev_index_range index), hr'] at hr
    cases hr
    have h0 : append_rc i = 0 := by simpa using happ 0 (Nat.succ_pos n)
    rw [access_loop_succ, hist_read_ok _ _ (prev_index_range index)]
    show (if append_rc i = 0 then _ else _) = _
    rw [if_pos h0, ih (i + 1) (prev_index index) (append_rc i) _ r' hr'
      (fun j hj => by have := happ (j + 1) (by omega); rwa [show i + 1 + j = i + (j + 1) by omega])]
    simp [h0]

/-- When some append of the remaining iterations fails, the loop stops at an assertion. -/
theorem access_loop_fail (append_rc : Nat → Int) (s : State) (n i : Nat) (index rc : Int)
    (om : List Nat) (happ : ∃ j, j < n ∧ append_rc (i + j) ≠ 0) :
    access_loop append_rc s n i index rc om = .error .assert_failed := by
  induction n generalizing i index rc om with
  | zero => obtain ⟨j, hj, _⟩ := happ; omega
  | succ n ih =>
    rw [access_loop_succ, hist_read_ok _ _ (prev_index_range index)]
    show (if append_rc i = 0 then _ else _) = _
    by_cases h0 : append_rc i = 0
    · rw [if_pos h0]
      obtain ⟨j, hj, hne⟩ := happ
      cases j with
      | zero => exact absurd h0 (by simpa using hne)
      | succ j =>
        exact ih (i + 1) _ _ _ ⟨j, by omega, by rwa [show i + 1 + j = i + (j + 1) by omega]⟩
    · rw [if_neg h0]

/-! ## Measurement -/

/-- The spin-wait ends as soon as the flag is observed set, so enough fuel always
suffices when the hardware does signal completion. -/
theorem wait_datardy_ok (datardy : Nat → Bool) (fuel k : Nat)
    (h : ∃ j, j < fuel ∧ datardy (k + j) = true) :
    ∃ tr, wait_datardy datardy fuel k = .ok tr := by
  induction fuel generalizing k with
  | zero => obtain ⟨j, hj, _⟩ := h; omega
  | succ fuel ih =>
    rw [wait_datardy]
    by_cases hk : datardy k = true
    · rw [if_pos hk]; exact ⟨_, rfl⟩
    · rw [if_neg hk]
      obtain ⟨j, hj, hd⟩ := h
      cases j with
      | zero => exact absurd hd hk
      | succ j =>
        obtain ⟨tr, htr⟩ := ih (k + 1) ⟨j, by omega, by rwa [show k + 1 + j = k + (j + 1) by omega]⟩
        rw [htr]; exact ⟨_, rfl⟩

theorem c_trunc_intCast (z : Int) : c_trunc (z : ℚ) = z := by
  unfold c_trunc
  rw [Rat.num_intCast, Rat.den_intCast]
  simp

/-- Scaling is exact whenever the result fits `int16_t`. -/
theorem scale_raw_ok (raw : Int) (h : -32768 ≤ 25 * raw ∧ 25 * raw ≤ 32767) :
    scale_raw raw = .ok (25 * raw) := by
  unfold scale_raw
  have hw : wrap32 (raw * 100) = raw * 100 := wrap32_of_range _ (by omega) (by omega)
  have hq : ((wrap32 (raw * 100) : Int) : ℚ) / 4 = ((25 * raw : Int) : ℚ) := by
    rw [hw]; push_cast; ring
  simp only [hq, c_trunc_intCast]
  rw [if_pos h]

theorem get_temp_measurement_ok (fuel : Nat) (env : SamplerEnv)
    (hr : -32768 ≤ 25 * env.raw ∧ 25 * env.raw ≤ 32767)
    (hrdy : ∃ j, j < fuel ∧ env.datardy j = true) :
    ∃ polls, wait_datardy env.datardy fuel 0 = .ok polls ∧
      get_temp_measurement fuel env =
        .ok (25 * env.raw, polls ++ [Effect.read_raw env.raw, Effect.tasks_start]) := by
  obtain ⟨polls, hp⟩ := wait_datardy_ok env.datardy fuel 0
    (by obtain ⟨j, hj, hd⟩ := hrdy; exact ⟨j, hj, by rwa [Nat.zero_add]⟩)
  refine ⟨polls, hp, ?_⟩
  unfold get_temp_measurement
  rw [hp, scale_raw_ok _ hr]
  rfl

/-- With the timer re-armed, the hardware signalling completion within the fuel, a raw
value that scales into `int16_t` and the cursor in range, a sampler invocation completes:
it stores the scaled value with `temp_store` and has the effects listed. -/
theorem temp_read_ok (fuel : Nat) (env : SamplerEnv) (s : State)
    (hrc : env.reset_rc = 0)
    (hr : -32768 ≤ 25 * env.raw ∧ 25 * env.raw ≤ 32767)
    (hrdy : ∃ j, j < fuel ∧ env.datardy j = true)
    (hc : 0 ≤ s.temp_queue_head ∧ s.temp_queue_head < 16) :
    ∃ s' polls, wait_datardy env.datardy fuel 0 = .ok polls ∧
      temp_store s (25 * env.raw) = .ok s' ∧
      temp_read fuel env s = .ok (s',
        [Effect.callout_reset (Int.tdiv env.OS_TICKS_PER_SEC TEMP_SAMPLING_RATE)] ++
        (polls ++ [Effect.read_raw env.raw, Effect.tasks_start]) ++
        [Effect.history_store s.temp_queue_head (25 * env.raw),
         Effect.head_store s'.temp_queue_head]) := by
  obtain ⟨polls, hp, hm⟩ := get_temp_measurement_ok fuel env hr hrdy
  obtain ⟨s', hs⟩ : ∃ s', temp_store s (25 * env.raw) = .ok s' := ⟨_, temp_store_ok s _ hc⟩
  refine ⟨s', polls, hp, hs, ?_⟩
  unfold temp_read queue_temp_read
  rw [if_pos hrc, hm]
  show (temp_store s (25 * env.raw)).bind _ = _
  rw [hs]
  rfl

/-- A sampler invocation that completes has stored an `int16_t` value, the scaled raw
reading, with `temp_store`. -/
theorem temp_read_inv (fuel : Nat) (env : SamplerEnv) (s s' : State) (tr : List Effect)
    (h : temp_read fuel env s = .ok (s', tr)) :
    ∃ v, is_int16 v ∧ scale_raw env.raw = .ok v ∧ temp_store s v = .ok s' := by
  unfold temp_read at h
  cases hq : queue_temp_read env with
  | error e => rw [hq] at h; cases h
  | ok rearm =>
    cases hm : get_temp_measurement fuel env with
    | error e => rw [hq, hm] at h; cases h
    | ok tm =>
      obtain ⟨temp, meas⟩ := tm
      cases hst : temp_store s temp with
      | error e =>
        rw [hq, hm] at h
        simp only [bind, Except.bind, hst] at h
        cases h
      | ok s1 =>
        rw [hq, hm] at h
        simp only [bind, Except.bind, hst, pure, Except.pure] at h
        cases h
        unfold get_temp_measurement at hm
        cases hw : wait_datardy env.datardy fuel 0 with
        | error e => rw [hw] at hm; cases hm
        | ok polls =>
          cases hsc : scale_raw env.raw with
          | error e => rw [hw, hsc] at hm; cases hm
          | ok t =>
            rw [hw, hsc] at hm
            cases hm
            refine ⟨temp, ?_, rfl, hst⟩
            unfold scale_raw at hsc
            simp only at hsc
            split at hsc
            · next hrange => cases hsc; exact hrange
            · cases hsc

theorem temp_read_all_cons (fuel : Nat) (s : State) (env : SamplerEnv)
    (envs : List SamplerEnv) :
    temp_read_all fuel s (env :: envs) =
      (temp_read fuel env s).bind (fun r1 =>
        (temp_read_all fuel r1.1 envs).bind (fun r2 => .ok (r2.1, r1.2 ++ r2.2))) := by
  rw [temp_read_all]; rfl

/-- A completed run of sampler invocations is a sequence of store-and-advance steps of
`int16_t` values, one per invocation. -/
theorem temp_read_all_stores (fuel : Nat) (envs : List SamplerEnv) (s s' : State)
    (tr : List Effect) (h : temp_read_all fuel s envs = .ok (s', tr)) :
    ∃ vs : List Int, vs.length = envs.length ∧ (∀ v ∈ vs, is_int16 v) ∧
      temp_store_all s vs = .ok s' := by
  induction envs generalizing s tr with
  | nil =>
    rw [temp_read_all] at h
    cases h
    exact ⟨[], rfl, fun _ hv => absurd hv (List.not_mem_nil _), temp_store_all_nil _⟩
  | cons env envs ih =>
    rw [temp_read_all_cons] at h
    cases h1 : temp_read fuel env s with
    | error e => rw [h1] at h; cases h
    | ok r1 =>
      obtain ⟨s1, t1⟩ := r1
      rw [h1] at h
      cases h2 : temp_read_all fuel s1 envs with
      | error e =>
        simp only [Except.bind, h2] at h
        cases h
      | ok r2 =>
        obtain ⟨s2, t2⟩ := r2
        simp only [Except.bind, h2] at h
        cases h
        obtain ⟨v, hv, _, hst⟩ := temp_read_inv fuel env s s1 t1 h1
        obtain ⟨vs, hlen, hvs, hall⟩ := ih s1 t2 h2
        refine ⟨v :: vs, by simp only [List.length_cons, hlen], ?_, ?_⟩
        · intro w hw
          rcases List.mem_cons.mp hw with hw | hw
          · rw [hw]; exact hv
          · exact hvs w hw
        · rw [temp_store_all_cons, hst]; exact hall

/-! ## The reader as a whole -/

/-- The reader completes with status 0 and the bytes of `snapshot s 10` appended when all
ten appends succeed, and stops at an assertion otherwise. -/
theorem gatt_svr_chr_access_temp_eq (append_rc : Nat → Int) (rc0 : Int) (s : State)
    (om : List Nat) (r : List Int) (hr : snapshot s 10 = .ok r) :
    gatt_svr_chr_access_temp append_rc rc0 s om =
      if ∀ i : Fin 10, append_rc i.val = 0 then
        .ok { rc := 0, om := om ++ r.flatMap int16_bytes, state := s }
      else .error .assert_failed := by
  unfold gatt_svr_chr_access_temp
  by_cases h : ∀ i : Fin 10, append_rc i.val = 0
  · rw [if_pos h, access_loop_ok append_rc s 10 0 s.temp_queue_head rc0 om r hr
      (fun j hj => by rw [Nat.zero_add]; exact h ⟨j, hj⟩)]
    rfl
  · rw [if_neg h]
    apply access_loop_fail
    push_neg at h
    obtain ⟨j, hne⟩ := h
    exact ⟨j.val, j.isLt, by rwa [Nat.zero_add]⟩

theorem getElem_opt_reverse_take (vs : List Int) (n k : Nat) (hk : k < n) (hn : n ≤ vs.length) :
    (vs.reverse.take n)[k]? = vs[vs.length - 1 - k]? := by
  rw [List.getElem?_take_of_lt hk, List.getElem?_reverse (by omega)]

theorem snapshot_zero (s : State) : snapshot s 0 = .ok [] := by
  unfold snapshot; rw [walk]

set_option maxRecDepth 20000 in
/-- From a cursor in range, 16 steps of the walk visit every slot exactly once. -/
theorem walk_slots_full (c : Int) (hc : 0 ≤ c ∧ c < 16) :
    (walk_slots c 16).Nodup ∧ ∀ j : Fin 16, (j.val : Int) ∈ walk_slots c 16 := by
  obtain ⟨h0, h16⟩ := hc
  interval_cases c <;> decide

/-- The frame of one store-and-advance from a cursor in range. -/
theorem temp_store_frame (s : State) (v : Int)
    (hc : 0 ≤ s.temp_queue_head ∧ s.temp_queue_head < 16) :
    ∃ s', temp_store s v = .ok s' ∧
      (∀ j : Fin TEMP_HIST_SIZE, (j.val : Int) = s.temp_queue_head → s'.temp_history j = v) ∧
      (∀ j : Fin TEMP_HIST_SIZE, (j.val : Int) ≠ s.temp_queue_head →
        s'.temp_history j = s.temp_history j) ∧
      s'.temp_queue_head = (s.temp_queue_head + 1) % 16 := by
  refine ⟨_, temp_store_ok s v hc, ?_, ?_, rfl⟩
  · intro j hj
    have hjc : j = ⟨s.temp_queue_head.toNat, by show s.temp_queue_head.toNat < 16; omega⟩ := by
      apply Fin.ext
      show j.val = s.temp_queue_head.toNat
      omega
    simp only
    rw [hjc, Function.update_same]
  · intro j hj
    have hjc : j ≠ ⟨s.temp_queue_head.toNat, by show s.temp_queue_head.toNat < 16; omega⟩ := by
      intro heq
      have hval := congrArg Fin.val heq
      simp only at hval
      omega
    simp only
    rw [Function.update_noteq hjc]

/-- On a run without incident a sampler invocation stores `25 * raw` at the cursor,
touches no other slot and advances the cursor. -/
theorem temp_read_env_ready (ticks raw : Int) (s : State)
    (hr : -32768 ≤ 25 * raw ∧ 25 * raw ≤ 32767)
    (hc : 0 ≤ s.temp_queue_head ∧ s.temp_queue_head < 16) :
    ∃ s' tr, temp_read 1 (env_ready ticks raw) s = .ok (s', tr) ∧
      (∀ j : Fin TEMP_HIST_SIZE, (j.val : Int) = s.temp_queue_head →
        s'.temp_history j = 25 * raw) ∧
      (∀ j : Fin TEMP_HIST_SIZE, (j.val : Int) ≠ s.temp_queue_head →
        s'.temp_history j = s.temp_history j) ∧
      s'.temp_queue_head = (s.temp_queue_head + 1) % 16 := by
  obtain ⟨s', _, _, hs, hread⟩ := temp_read_ok 1 (env_ready ticks raw) s rfl hr
    ⟨0, Nat.zero_lt_one, rfl⟩ hc
  obtain ⟨s'', hs'', hframe⟩ := temp_store_frame s (25 * raw) hc
  rw [show (env_ready ticks raw).raw = raw from rfl, hs''] at hs
  cases hs
  exact ⟨_, _, hread, hframe⟩

/-- Three sampler invocations from cursor 0 with raw readings 100, 101, 102 store 2500,
2525, 2550 in slots 0, 1, 2. -/
theorem three_samples_stored (ticks : Int) (hist : Fin TEMP_HIST_SIZE → Int) :
    ∃ s1 t1 s2 t2 s3 t3,
      temp_read 1 (env_ready ticks 100) { temp_queue_head := 0, temp_history := hist } =
        .ok (s1, t1) ∧
      temp_read 1 (env_ready ticks 101) s1 = .ok (s2, t2) ∧
      temp_read 1 (env_ready ticks 102) s2 = .ok (s3, t3) ∧
      s3.temp_history 0 = 2500 ∧ s3.temp_history 1 = 2525 ∧ s3.temp_history 2 = 2550 ∧
      s3.temp_queue_head = 3 := by
  obtain ⟨s1, t1, h1, hs1, ho1, hh1⟩ := temp_read_env_ready ticks 100
    { temp_queue_head := 0, temp_history := hist } (by decide)
    (by show (0 : Int) ≤ 0 ∧ (0 : Int) < 16; decide)
  have hh1' : s1.temp_queue_head = 1 := by rw [hh1]; rfl
  obtain ⟨s2, t2, h2, hs2, ho2, hh2⟩ := temp_read_env_ready ticks 101 s1 (by decide)
    (by rw [hh1']; decide)
  have hh2' : s2.temp_queue_head = 2 := by rw [hh2, hh1']; rfl
  obtain ⟨s3, t3, h3, hs3, ho3, hh3⟩ := temp_read_env_ready ticks 102 s2 (by decide)
    (by rw [hh2']; decide)
  have hh3' : s3.temp_queue_head = 3 := by rw [hh3, hh2']; rfl
  refine ⟨s1, t1, s2, t2, s3, t3, h1, h2, h3, ?_, ?_, ?_, hh3'⟩
  · rw [ho3 0 (by rw [hh2']; decide), ho2 0 (by rw [hh1']; decide), hs1 0 rfl]; rfl
  · rw [ho3 1 (by rw [hh2']; decide), hs2 1 (by rw [hh1']; rfl)]; rfl
  · rw [hs3 2 (by rw [hh2']; rfl)]; rfl

/-- A run of the loop that returns has left the shared variables as they were and has
appended the bytes of the values the walk reads. -/
theorem access_loop_frame (append_rc : Nat → Int) (s : State) (n i : Nat) (index rc : Int)
    (om : List Nat) (res : ReadResult)
    (h : access_loop append_rc s n i index rc om = .ok res) :
    res.state = s ∧ ∃ p, walk s.temp_history index n = .ok p ∧
      res.om = om ++ p.flatMap int16_bytes := by
  obtain ⟨p, hp, _⟩ := walk_ok s.temp_history n index
  by_cases hf : ∃ j, j < n ∧ append_rc (i + j) ≠ 0
  · rw [access_loop_fail append_rc s n i index rc om hf] at h
    cases h
  · push_neg at hf
    rw [access_loop_ok append_rc s n i index rc om p hp hf] at h
    cases h
    exact ⟨rfl, p, hp, rfl⟩

/-- The reader's only fault is the failed assertion. -/
theorem reader_never_out_of_bounds (append_rc : Nat → Int) (rc0 : Int) (s : State)
    (om : List Nat) :
    gatt_svr_chr_access_temp append_rc rc0 s om ≠ .error .out_of_bounds := by
  obtain ⟨p, hp, _⟩ := walk_ok s.temp_history 10 s.temp_queue_head
  rw [gatt_svr_chr_access_temp_eq append_rc rc0 s om p hp]
  split <;> intro h <;> cases h

/-! ## Properties of the ring buffer, its sampler and its reader -/

/-- C1: once at least 10 `int16_t` samples `v1..vM` have been stored in order from a cursor
in `[0,16)`, a reader invocation returns status 0 with exactly 20 bytes added to the output
buffer, the encodings of the last 10 samples most recent first (entry `k` of the report is
sample `M - k`); the only other outcome, when an append fails, is the halt at the
assertion. -/
theorem reader_reports_last_ten (s : State) (vs : List Int) (append_rc : Nat → Int)
    (rc0 : Int) (om : List Nat)
    (hc : 0 ≤ s.temp_queue_head ∧ s.temp_queue_head < 16)
    (hM : 10 ≤ vs.length) (hv : ∀ v ∈ vs, is_int16 v) :
    ∃ s', temp_store_all s vs = .ok s' ∧
      gatt_svr_chr_access_temp append_rc rc0 s' om =
        (if ∀ i : Fin 10, append_rc i.val = 0 then
          .ok { rc := 0, om := om ++ (vs.reverse.take 10).flatMap int16_bytes, state := s' }
        else .error .assert_failed) ∧
      ((vs.reverse.take 10).flatMap int16_bytes).length = 20 ∧
      decode_int16s ((vs.reverse.take 10).flatMap int16_bytes) = vs.reverse.take 10 ∧
      (vs.reverse.take 10).length = 10 ∧
      ∀ k, k < 10 → (vs.reverse.take 10)[k]? = vs[vs.length - 1 - k]? := by
  obtain ⟨s', hs', hsnap⟩ := snapshot_after_writes vs s 10 hc (by omega) hM
  have hlen : (vs.reverse.take 10).length = 10 := by
    rw [List.length_take, List.length_reverse]; omega
  have hint : ∀ v ∈ vs.reverse.take 10, is_int16 v := fun v hv' =>
    hv v (List.mem_reverse.mp (List.mem_of_mem_take hv'))
  refine ⟨s', hs', gatt_svr_chr_access_temp_eq append_rc rc0 s' om _ hsnap, ?_,
    decode_int16s_bytes _ hint, hlen, ?_⟩
  · rw [length_flatMap_int16_bytes, hlen]
  · intro k hk
    exact getElem_opt_reverse_take vs 10 k hk hM

/-- C1 at a concrete run: twelve samples written from cursor 9 into a zeroed buffer, read
into a buffer holding one byte, every append succeeding. -/
theorem reader_reports_last_ten_witness :
    ∃ s', temp_store_all { temp_queue_head := 9, temp_history := fun _ => 0 }
        [1, -2, 3, -4, 5, -6, 7, -8, 9, -10, 11, -12] = .ok s' ∧
      gatt_svr_chr_access_temp (fun _ => 0) 7 s' [170] =
        .ok { rc := 0
              om := [170, 244, 255, 11, 0, 246, 255, 9, 0, 248, 255, 7, 0, 250, 255, 5, 0, 252,
                255, 3, 0]
              state := s' } ∧
      decode_int16s [244, 255, 11, 0, 246, 255, 9, 0, 248, 255, 7, 0, 250, 255, 5, 0, 252,
        255, 3, 0] = [-12, 11, -10, 9, -8, 7, -6, 5, -4, 3] := by
  obtain ⟨s', hs', hread, _, hdec, _, _⟩ := reader_reports_last_ten
    { temp_queue_head := 9, temp_history := fun _ => 0 }
    [1, -2, 3, -4, 5, -6, 7, -8, 9, -10, 11, -12] (fun _ => 0) 7 [170]
    (by decide) (by decide) (by decide)
  exact ⟨s', hs', by rw [hread, if_pos (fun _ => rfl)]; rfl, hdec⟩

/-- C2: after writing `v1..vN`, `N ≤ 16`, in order from a cursor in `[0,16)`, the backward
walk over `N` slots returns `[vN, ..., v1]`; a walk over 0 slots returns the empty
sequence; and after writing 2500, 2525, 2550 the walk over 3 slots returns
`[2550, 2525, 2500]`. -/
theorem snapshot_most_recent_first (s : State) (vs : List Int)
    (hc : 0 ≤ s.temp_queue_head ∧ s.temp_queue_head < 16) (hN : vs.length ≤ 16) :
    (∃ s', temp_store_all s vs = .ok s' ∧ snapshot s' vs.length = .ok vs.reverse) ∧
    (∀ st : State, snapshot st 0 = .ok []) ∧
    (∃ s3, temp_store_all s [2500, 2525, 2550] = .ok s3 ∧
      snapshot s3 3 = .ok [2550, 2525, 2500]) := by
  refine ⟨?_, snapshot_zero, ?_⟩
  · obtain ⟨s', hs', hsnap⟩ := snapshot_after_writes vs s vs.length hc hN (le_refl _)
    refine ⟨s', hs', ?_⟩
    rw [hsnap, List.take_of_length_le (by rw [List.length_reverse])]
  · obtain ⟨s3, hs3, hsnap⟩ := snapshot_after_writes [2500, 2525, 2550] s 3 hc (by omega)
      (by decide)
    exact ⟨s3, hs3, hsnap⟩

/-- C2 at a concrete run: five samples written from cursor 14, so that the writes wrap. -/
theorem snapshot_most_recent_first_witness :
    (∃ s', temp_store_all { temp_queue_head := 14, temp_history := fun _ => -1 }
        [10, 20, 30, 40, 50] = .ok s' ∧
      snapshot s' ([10, 20, 30, 40, 50] : List Int).length =
        .ok ([10, 20, 30, 40, 50] : List Int).reverse) ∧
    (∀ st : State, snapshot st 0 = .ok []) ∧
    (∃ s3, temp_store_all { temp_queue_head := 14, temp_history := fun _ => -1 }
        [2500, 2525, 2550] = .ok s3 ∧
      snapshot s3 3 = .ok [2550, 2525, 2500]) :=
  snapshot_most_recent_first { temp_queue_head := 14, temp_history := fun _ => -1 }
    [10, 20, 30, 40, 50] (by decide) (by decide)

/-- C3: after `16 + K` writes, `K < 16`, from a cursor in `[0,16)`, the walk over 16 slots
returns the last 16 values written, most recent first (entry `k` is the value written
`k` writes before the last); the 16 slots it reads are pairwise distinct and are all the
slots of the array; and after writing `0..19` it returns `[19, 18, ..., 4]`. -/
theorem snapshot_wraparound (s : State) (vs : List Int) (K : Nat)
    (hc : 0 ≤ s.temp_queue_head ∧ s.temp_queue_head < 16)
    (hK : K < 16) (hlen : vs.length = 16 + K) :
    (∃ s', temp_store_all s vs = .ok s' ∧
      snapshot s' 16 = .ok (vs.reverse.take 16) ∧
      (vs.reverse.take 16).length = 16 ∧
      (∀ k, k < 16 → (vs.reverse.take 16)[k]? = vs[vs.length - 1 - k]?) ∧
      (walk_slots s'.temp_queue_head 16).map (hist_read s'.temp_history) =
        (vs.reverse.take 16).map Except.ok ∧
      (walk_slots s'.temp_queue_head 16).Nodup ∧
      ∀ j : Fin 16, (j.val : Int) ∈ walk_slots s'.temp_queue_head 16) ∧
    (∃ s20, temp_store_all s
        [0, 1, 2, 3, 4, 5, 6, 7, 8, 9, 10, 11, 12, 13, 14, 15, 16, 17, 18, 19] = .ok s20 ∧
      snapshot s20 16 = .ok [19, 18, 17, 16, 15, 14, 13, 12, 11, 10, 9, 8, 7, 6, 5, 4]) := by
  constructor
  · obtain ⟨s', hs', hsnap⟩ := snapshot_after_writes vs s 16 hc (le_refl _) (by omega)
    have hc' : 0 ≤ s'.temp_queue_head ∧ s'.temp_queue_head < 16 := by
      obtain ⟨s'', hs'', hhead⟩ := temp_store_all_head vs s hc
      rw [hs'] at hs''
      cases hs''
      rw [hhead]; omega
    obtain ⟨hnd, hall⟩ := walk_slots_full s'.temp_queue_head hc'
    refine ⟨s', hs', hsnap, ?_, ?_, walk_reads_slots _ _ _ _ hsnap, hnd, hall⟩
    · rw [List.length_take, List.length_reverse]; omega
    · intro k hk
      exact getElem_opt_reverse_take vs 16 k hk (by omega)
  · obtain ⟨s20, hs20, hsnap⟩ := snapshot_after_writes
      [0, 1, 2, 3, 4, 5, 6, 7, 8, 9, 10, 11, 12, 13, 14, 15, 16, 17, 18, 19] s 16 hc
      (le_refl _) (by decide)
    exact ⟨s20, hs20, hsnap⟩

/-- C3 at a concrete run: 19 samples (`K = 3`) written from cursor 5. -/
theorem snapshot_wraparound_witness :
    (∃ s', temp_store_all { temp_queue_head := 5, temp_history := fun _ => 0 }
        [100, 101, 102, 103, 104, 105, 106, 107, 108, 109, 110, 111, 112, 113, 114, 115, 116,
          117, 118] = .ok s' ∧
      snapshot s' 16 = .ok (([100, 101, 102, 103, 104, 105, 106, 107, 108, 109, 110, 111, 112,
          113, 114, 115, 116, 117, 118] : List Int).reverse.take 16) ∧
      (([100, 101, 102, 103, 104, 105, 106, 107, 108, 109, 110, 111, 112,
          113, 114, 115, 116, 117, 118] : List Int).reverse.take 16).length = 16 ∧
      (∀ k, k < 16 → (([100, 101, 102, 103, 104, 105, 106, 107, 108, 109, 110, 111, 112,
          113, 114, 115, 116, 117, 118] : List Int).reverse.take 16)[k]? =
        ([100, 101, 102, 103, 104, 105, 106, 107, 108, 109, 110, 111, 112,
          113, 114, 115, 116, 117, 118] : List Int)[([100, 101, 102, 103, 104, 105, 106, 107,
          108, 109, 110, 111, 112, 113, 114, 115, 116, 117, 118] : List Int).length - 1 - k]?) ∧
      (walk_slots s'.temp_queue_head 16).map (hist_read s'.temp_history) =
        (([100, 101, 102, 103, 104, 105, 106, 107, 108, 109, 110, 111, 112,
          113, 114, 115, 116, 117, 118] : List Int).reverse.take 16).map Except.ok ∧
      (walk_slots s'.temp_queue_head 16).Nodup ∧
      ∀ j : Fin 16, (j.val : Int) ∈ walk_slots s'.temp_queue_head 16) ∧
    (∃ s20, temp_store_all { temp_queue_head := 5, temp_history := fun _ => 0 }
        [0, 1, 2, 3, 4, 5, 6, 7, 8, 9, 10, 11, 12, 13, 14, 15, 16, 17, 18, 19] = .ok s20 ∧
      snapshot s20 16 = .ok [19, 18, 17, 16, 15, 14, 13, 12, 11, 10, 9, 8, 7, 6, 5, 4]) :=
  snapshot_wraparound { temp_queue_head := 5, temp_history := fun _ => 0 }
    [100, 101, 102, 103, 104, 105, 106, 107, 108, 109, 110, 111, 112, 113, 114, 115, 116,
      117, 118] 3 (by decide) (by decide) (by decide)

/-- C4: from a cursor `c0` in `[0,16)`, `N` successive store-and-advance steps all
complete and leave the cursor at `(c0 + N) mod 16`; so does every completed run of `N`
sampler invocations. -/
theorem cursor_after_writes (s : State) (vs : List Int)
    (hc : 0 ≤ s.temp_queue_head ∧ s.temp_queue_head < 16) :
    (∃ s', temp_store_all s vs = .ok s' ∧
      s'.temp_queue_head = (s.temp_queue_head + vs.length) % 16) ∧
    (∀ fuel envs s' tr, temp_read_all fuel s envs = .ok (s', tr) →
      s'.temp_queue_head = (s.temp_queue_head + envs.length) % 16) := by
  refine ⟨temp_store_all_head vs s hc, ?_⟩
  intro fuel envs s' tr h
  obtain ⟨ws, hlen, _, hst⟩ := temp_read_all_stores fuel envs s s' tr h
  obtain ⟨s'', hs'', hhead⟩ := temp_store_all_head ws s hc
  rw [hst] at hs''
  cases hs''
  rw [hhead, hlen]

/-- C4 at a concrete run: 21 writes from cursor 13 end at cursor 2. -/
theorem cursor_after_writes_witness :
    ∃ s', temp_store_all { temp_queue_head := 13, temp_history := fun _ => 0 }
        (List.replicate 21 7) = .ok s' ∧ s'.temp_queue_head = 2 :=
  (cursor_after_writes { temp_queue_head := 13, temp_history := fun _ => 0 }
    (List.replicate 21 7) (by decide)).1

/-- C5: with the cursor `c` in `[0,16)`, one store-and-advance completes, leaves the sample
in slot `c`, leaves every other slot as it was, and moves the cursor to `(c + 1) mod 16`;
every completed sampler invocation is one such write, of an `int16_t` value. -/
theorem write_confined_to_one_slot (s : State) (v : Int)
    (hc : 0 ≤ s.temp_queue_head ∧ s.temp_queue_head < 16) :
    (∃ s', temp_store s v = .ok s' ∧
      (∀ j : Fin TEMP_HIST_SIZE, (j.val : Int) = s.temp_queue_head → s'.temp_history j = v) ∧
      (∀ j : Fin TEMP_HIST_SIZE, (j.val : Int) ≠ s.temp_queue_head →
        s'.temp_history j = s.temp_history j) ∧
      s'.temp_queue_head = (s.temp_queue_head + 1) % 16) ∧
    (∀ fuel env s' tr, temp_read fuel env s = .ok (s', tr) →
      ∃ w, is_int16 w ∧
        (∀ j : Fin TEMP_HIST_SIZE, (j.val : Int) = s.temp_queue_head →
          s'.temp_history j = w) ∧
        (∀ j : Fin TEMP_HIST_SIZE, (j.val : Int) ≠ s.temp_queue_head →
          s'.temp_history j = s.temp_history j) ∧
        s'.temp_queue_head = (s.temp_queue_head + 1) % 16) := by
  refine ⟨temp_store_frame s v hc, ?_⟩
  intro fuel env s' tr h
  obtain ⟨w, hw, _, hst⟩ := temp_read_inv fuel env s s' tr h
  obtain ⟨s'', hs'', hframe⟩ := temp_store_frame s w hc
  rw [hst] at hs''
  cases hs''
  exact ⟨w, hw, hframe⟩

/-- C5 at a concrete write: sample 2525 stored at cursor 15, the last slot. -/
theorem write_confined_to_one_slot_witness :
    ∃ s', temp_store { temp_queue_head := 15, temp_history := fun j => (j.val : Int) } 2525 =
        .ok s' ∧
      (∀ j : Fin TEMP_HIST_SIZE, (j.val : Int) = 15 → s'.temp_history j = 2525) ∧
      (∀ j : Fin TEMP_HIST_SIZE, (j.val : Int) ≠ 15 → s'.temp_history j = (j.val : Int)) ∧
      s'.temp_queue_head = 0 :=
  (write_confined_to_one_slot
    { temp_queue_head := 15, temp_history := fun j => (j.val : Int) } 2525 (by decide)).1

/-- C6: when the scaled value `25 * r` of the raw reading `r` fits `int16_t` and the
hardware signals completion within the fuel, `get_temp_measurement` returns exactly
`r * 100 / 4 = 25 * r`, after reading the raw value and before starting the next
measurement; raw 100, 101, 102 scale to 2500, 2525, 2550, and three sampler invocations
with these readings store them in slots 0, 1, 2. -/
theorem scaling_is_exact (fuel : Nat) (env : SamplerEnv)
    (hr : -32768 ≤ 25 * env.raw ∧ 25 * env.raw ≤ 32767)
    (hrdy : ∃ j, j < fuel ∧ env.datardy j = true) :
    (∃ polls, get_temp_measurement fuel env =
      .ok (25 * env.raw, polls ++ [Effect.read_raw env.raw, Effect.tasks_start])) ∧
    25 * env.raw = env.raw * 100 / 4 ∧
    scale_raw 100 = .ok 2500 ∧ scale_raw 101 = .ok 2525 ∧ scale_raw 102 = .ok 2550 ∧
    (∀ (ticks : Int) (hist : Fin TEMP_HIST_SIZE → Int), ∃ s1 t1 s2 t2 s3 t3,
      temp_read 1 (env_ready ticks 100) { temp_queue_head := 0, temp_history := hist } =
        .ok (s1, t1) ∧
      temp_read 1 (env_ready ticks 101) s1 = .ok (s2, t2) ∧
      temp_read 1 (env_ready ticks 102) s2 = .ok (s3, t3) ∧
      s3.temp_history 0 = 2500 ∧ s3.temp_history 1 = 2525 ∧ s3.temp_history 2 = 2550 ∧
      s3.temp_queue_head = 3) := by
  obtain ⟨polls, _, hm⟩ := get_temp_measurement_ok fuel env hr hrdy
  exact ⟨⟨polls, hm⟩, by omega, scale_raw_ok 100 (by decide), scale_raw_ok 101 (by decide),
    scale_raw_ok 102 (by decide), three_samples_stored⟩

/-- C6 at a concrete reading: raw -7 (-1.75 degC), ready at the third poll. -/
theorem scaling_is_exact_witness :
    ∃ polls, get_temp_measurement 5
        { OS_TICKS_PER_SEC := 128, reset_rc := 0, datardy := fun k => decide (2 ≤ k),
          raw := -7 } =
      .ok (-175, polls ++ [Effect.read_raw (-7), Effect.tasks_start]) :=
  (scaling_is_exact 5
    { OS_TICKS_PER_SEC := 128, reset_rc := 0, datardy := fun k => decide (2 ≤ k), raw := -7 }
    (by decide) ⟨2, by decide, by decide⟩).1

/-- C7: a reader invocation that returns leaves `temp_queue_head` and every slot of
`temp_history` as it found them. -/
theorem reader_writes_nothing (append_rc : Nat → Int) (rc0 : Int) (s : State)
    (om : List Nat) (res : ReadResult)
    (h : gatt_svr_chr_access_temp append_rc rc0 s om = .ok res) :
    res.state.temp_queue_head = s.temp_queue_head ∧
    (∀ j : Fin TEMP_HIST_SIZE, res.state.temp_history j = s.temp_history j) ∧
    res.state = s := by
  obtain ⟨hs, _⟩ := access_loop_frame append_rc s 10 0 s.temp_queue_head rc0 om res h
  rw [hs]
  exact ⟨rfl, fun _ => rfl, rfl⟩

/-- C7 at a concrete read: cursor 4 over the buffer holding `100 * j` in slot `j`. -/
theorem reader_writes_nothing_witness :
    ∃ res, gatt_svr_chr_access_temp (fun _ => 0) 0
        { temp_queue_head := 4, temp_history := fun j => 100 * (j.val : Int) } [] = .ok res ∧
      res.state.temp_queue_head = 4 ∧
      (∀ j : Fin TEMP_HIST_SIZE, res.state.temp_history j = 100 * (j.val : Int)) ∧
      res.state = { temp_queue_head := 4, temp_history := fun j => 100 * (j.val : Int) } :=
  ⟨_, rfl, reader_writes_nothing (fun _ => 0) 0
    { temp_queue_head := 4, temp_history := fun j => 100 * (j.val : Int) } [] _ rfl⟩

/-- C8: for every state and count `K` the walk over `K` slots has one result `p`; a run of
the reader's loop for `K` iterations appends the bytes of `p` and hands on the state it
was given, so a second run, with no write in between, appends the same bytes and the walk
still gives `p`.  For the reader itself (`K = 10`) two consecutive invocations append the
same 20 bytes. -/
theorem snapshot_idempotent (K : Nat) (s : State) :
    (∃ p, snapshot s K = .ok p ∧ p.length = K ∧
      ∀ a1 rc1 om1 r1, access_loop a1 s K 0 s.temp_queue_head rc1 om1 = .ok r1 →
        snapshot r1.state K = .ok p ∧ r1.om = om1 ++ p.flatMap int16_bytes ∧
        ∀ a2 rc2 om2 r2,
          access_loop a2 r1.state K 0 r1.state.temp_queue_head rc2 om2 = .ok r2 →
          snapshot r2.state K = .ok p ∧ r2.om = om2 ++ p.flatMap int16_bytes ∧
          r2.om.drop om2.length = r1.om.drop om1.length) ∧
    (∀ a1 rc1 om1 r1, gatt_svr_chr_access_temp a1 rc1 s om1 = .ok r1 →
      ∀ a2 rc2 om2 r2, gatt_svr_chr_access_temp a2 rc2 r1.state om2 = .ok r2 →
        r2.om.drop om2.length = r1.om.drop om1.length ∧
        (r1.om.drop om1.length).length = 20) := by
  have key : ∀ (n : Nat) (a1 : Nat → Int) (rc1 : Int) (om1 : List Nat) (r1 : ReadResult),
      access_loop a1 s n 0 s.temp_queue_head rc1 om1 = .ok r1 →
      ∀ (a2 : Nat → Int) (rc2 : Int) (om2 : List Nat) (r2 : ReadResult),
        access_loop a2 r1.state n 0 r1.state.temp_queue_head rc2 om2 = .ok r2 →
        ∃ p, snapshot s n = .ok p ∧ p.length = n ∧ r1.state = s ∧ r2.state = s ∧
          r1.om = om1 ++ p.flatMap int16_bytes ∧ r2.om = om2 ++ p.flatMap int16_bytes := by
    intro n a1 rc1 om1 r1 h1 a2 rc2 om2 r2 h2
    obtain ⟨hs1, p1, hp1, ho1⟩ := access_loop_frame _ _ _ _ _ _ _ _ h1
    rw [hs1] at h2
    obtain ⟨hs2, p2, hp2, ho2⟩ := access_loop_frame _ _ _ _ _ _ _ _ h2
    rw [hp1] at hp2
    cases hp2
    obtain ⟨p', hp', hlen⟩ := walk_ok s.temp_history n s.temp_queue_head
    rw [hp1] at hp'
    cases hp'
    exact ⟨p1, hp1, hlen, hs1, hs2, ho1, ho2⟩
  constructor
  · obtain ⟨p, hp, hlen⟩ := walk_ok s.temp_history K s.temp_queue_head
    refine ⟨p, hp, hlen, ?_⟩
    intro a1 rc1 om1 r1 h1
    obtain ⟨hs1, p1, hp1, ho1⟩ := access_loop_frame _ _ _ _ _ _ _ _ h1
    rw [hp] at hp1
    cases hp1
    refine ⟨by rw [hs1]; exact hp, ho1, ?_⟩
    intro a2 rc2 om2 r2 h2
    obtain ⟨q, hq, _, _, hs2, hq1, hq2⟩ := key K a1 rc1 om1 r1 h1 a2 rc2 om2 r2 h2
    have hqp : q = p := by
      have hq' : walk s.temp_history s.temp_queue_head K = .ok q := hq
      rw [hp] at hq'
      cases hq'
      rfl
    subst hqp
    refine ⟨by rw [hs2]; exact hp, hq2, ?_⟩
    rw [hq1, hq2, List.drop_left, List.drop_left]
  · intro a1 rc1 om1 r1 h1 a2 rc2 om2 r2 h2
    obtain ⟨q, _, hlen, _, _, hq1, hq2⟩ := key 10 a1 rc1 om1 r1 h1 a2 rc2 om2 r2 h2
    rw [hq1, hq2, List.drop_left, List.drop_left, length_flatMap_int16_bytes, hlen]
    exact ⟨rfl, rfl⟩

/-- C9: whatever the value of `index`, the next index of the walk lies in `[0,16)`; so
every slot the walk visits from any cursor is inside the array, the walk always yields
its `count` values, and the reader never faults on an array access. -/
theorem reader_index_in_bounds (cursor : Int) (hist : Fin TEMP_HIST_SIZE → Int)
    (count : Nat) :
    (0 ≤ prev_index cursor ∧ prev_index cursor < 16) ∧
    (∀ i ∈ walk_slots cursor count, 0 ≤ i ∧ i < 16) ∧
    (∃ p, snapshot { temp_queue_head := cursor, temp_history := hist } count = .ok p ∧
      p.length = count) ∧
    (∀ append_rc rc0 om,
      gatt_svr_chr_access_temp append_rc rc0
        { temp_queue_head := cursor, temp_history := hist } om ≠ .error .out_of_bounds) := by
  refine ⟨prev_index_range cursor, ?_, walk_ok hist count cursor, ?_⟩
  · induction count generalizing cursor with
    | zero => intro i hi; rw [walk_slots] at hi; cases hi
    | succ n ih =>
      intro i hi
      rw [walk_slots, List.mem_cons] at hi
      rcases hi with hi | hi
      · rw [hi]; exact prev_index_range cursor
      · exact ih _ i hi
  · intro append_rc rc0 om
    exact reader_never_out_of_bounds append_rc rc0 _ om

/-- C10: a reader invocation returns status 0 with its 20 bytes appended when all ten
appends succeed, and otherwise stops at the assertion; no non-zero status is returned. -/
theorem reader_status (append_rc : Nat → Int) (rc0 : Int) (s : State) (om : List Nat) :
    (∃ payload, payload.length = 20 ∧
      gatt_svr_chr_access_temp append_rc rc0 s om =
        if ∀ i : Fin 10, append_rc i.val = 0 then
          .ok { rc := 0, om := om ++ payload, state := s }
        else .error .assert_failed) ∧
    (∀ res, gatt_svr_chr_access_temp append_rc rc0 s om = .ok res → res.rc = 0) := by
  obtain ⟨p, hp, hlen⟩ := walk_ok s.temp_history 10 s.temp_queue_head
  have heq := gatt_svr_chr_access_temp_eq append_rc rc0 s om p hp
  refine ⟨⟨p.flatMap int16_bytes, by rw [length_flatMap_int16_bytes, hlen], heq⟩, ?_⟩
  intro res hres
  rw [heq] at hres
  split at hres
  · cases hres; rfl
  · cases hres


/-! ## Traces -/

/-- The spin-wait can only stop for lack of fuel, and the polls it makes are polls. -/
theorem wait_datardy_polls (datardy : Nat → Bool) (fuel k : Nat) :
    wait_datardy datardy fuel k = .error .out_of_fuel ∨
    ∃ polls, wait_datardy datardy fuel k = .ok polls ∧
      ∀ e ∈ polls, ∃ b, e = Effect.datardy_poll b := by
  induction fuel generalizing k with
  | zero => left; rw [wait_datardy]
  | succ fuel ih =>
    rw [wait_datardy]
    by_cases hk : datardy k = true
    · right
      rw [if_pos hk]
      refine ⟨_, rfl, ?_⟩
      intro e he
      exact ⟨true, List.mem_singleton.mp he⟩
    · rw [if_neg hk]
      rcases ih (k + 1) with herr | ⟨polls, hp, hall⟩
      · left; rw [herr]; rfl
      · right
        rw [hp]
        refine ⟨_, rfl, ?_⟩
        intro e he
        rcases List.mem_cons.mp he with he | he
        · exact ⟨false, he⟩
        · exact hall e he

/-- Scaling either gives an `int16_t` value or stops as unrepresentable. -/
theorem scale_raw_cases (raw : Int) :
    scale_raw raw = .error .unrepresentable ∨ ∃ v, scale_raw raw = .ok v ∧ is_int16 v := by
  unfold scale_raw
  simp only
  split
  · next h => right; exact ⟨_, rfl, h⟩
  · left; rfl

/-- Every outcome of a sampler invocation from a cursor in range: the halt at the re-arm
assertion, the wait that outlasts the fuel, a reading that does not scale into `int16_t`,
or completion with the effects in the order listed. -/
theorem temp_read_cases (fuel : Nat) (env : SamplerEnv) (s : State)
    (hc : 0 ≤ s.temp_queue_head ∧ s.temp_queue_head < 16) :
    temp_read fuel env s = .error .assert_failed ∨
    temp_read fuel env s = .error .out_of_fuel ∨
    temp_read fuel env s = .error .unrepresentable ∨
    ∃ s' v polls, is_int16 v ∧ scale_raw env.raw = .ok v ∧
      (∀ e ∈ polls, ∃ b, e = Effect.datardy_poll b) ∧
      temp_store s v = .ok s' ∧
      temp_read fuel env s = .ok (s',
        Effect.callout_reset (Int.tdiv env.OS_TICKS_PER_SEC TEMP_SAMPLING_RATE) ::
          (polls ++ [Effect.read_raw env.raw, Effect.tasks_start,
            Effect.history_store s.temp_queue_head v,
            Effect.head_store s'.temp_queue_head])) := by
  unfold temp_read queue_temp_read get_temp_measurement
  by_cases hrc : env.reset_rc = 0
  · rw [if_pos hrc]
    rcases wait_datardy_polls env.datardy fuel 0 with hw | ⟨polls, hw, hpolls⟩
    · right; left; rw [hw]; rfl
    · rcases scale_raw_cases env.raw with hsc | ⟨v, hsc, hv⟩
      · right; right; left; rw [hw, hsc]; rfl
      · right; right; right
        obtain ⟨s', hs'⟩ : ∃ s', temp_store s v = .ok s' := ⟨_, temp_store_ok s v hc⟩
        refine ⟨s', v, polls, hv, hsc, hpolls, hs', ?_⟩
        rw [hw, hsc]
        show (temp_store s v).bind _ = _
        rw [hs']
        show Except.ok (s', _) = Except.ok (s', _)
        simp only [List.append_assoc, List.cons_append, List.nil_append, List.singleton_append]
  · left; rw [if_neg hrc]; rfl


/-- A store that completes started from a cursor inside the array. -/
theorem temp_store_range (s s' : State) (v : Int) (h : temp_store s v = .ok s') :
    0 ≤ s.temp_queue_head ∧ s.temp_queue_head < 16 := by
  by_contra hc
  unfold temp_store hist_write at h
  rw [dif_neg hc] at h
  cases h

/-- The effects of a sampler invocation that completes, in program order. -/
theorem temp_read_shape (fuel : Nat) (env : SamplerEnv) (s s' : State) (tr : List Effect)
    (h : temp_read fuel env s = .ok (s', tr)) :
    ∃ v polls, is_int16 v ∧ (∀ e ∈ polls, ∃ b, e = Effect.datardy_poll b) ∧
      temp_store s v = .ok s' ∧
      (0 ≤ s.temp_queue_head ∧ s.temp_queue_head < 16) ∧
      tr = Effect.callout_reset (Int.tdiv env.OS_TICKS_PER_SEC TEMP_SAMPLING_RATE) ::
        (polls ++ [Effect.read_raw env.raw, Effect.tasks_start,
          Effect.history_store s.temp_queue_head v,
          Effect.head_store s'.temp_queue_head]) := by
  obtain ⟨w, _, _, hst⟩ := temp_read_inv fuel env s s' tr h
  have hc := temp_store_range s s' w hst
  rcases temp_read_cases fuel env s hc with he | he | he | ⟨s1, v, polls, hv, _, hpolls, hs1, hread⟩
  · rw [he] at h; cases h
  · rw [he] at h; cases h
  · rw [he] at h; cases h
  · rw [hread] at h
    cases h
    exact ⟨v, polls, hv, hpolls, hs1, hc, rfl⟩

theorem filter_polls (p : Effect → Bool) (polls : List Effect)
    (hp : ∀ b, p (Effect.datardy_poll b) = false)
    (hpolls : ∀ e ∈ polls, ∃ b, e = Effect.datardy_poll b) :
    polls.filter p = [] := by
  rw [List.filter_eq_nil_iff]
  intro e he
  obtain ⟨b, hb⟩ := hpolls e he
  rw [hb, hp b]
  exact Bool.false_ne_true

/-- The initialisation either halts at the re-arm assertion or completes with cursor 0,
the buffer as found, and the effects listed. -/
theorem temp_reader_init_eq (env : SamplerEnv) (s : State) :
    temp_reader_init env s =
      if env.reset_rc = 0 then
        .ok ({ temp_queue_head := 0, temp_history := s.temp_history },
          [Effect.head_store 0, Effect.callout_init,
            Effect.callout_reset (Int.tdiv env.OS_TICKS_PER_SEC TEMP_SAMPLING_RATE),
            Effect.tasks_start])
      else .error .assert_failed := by
  unfold temp_reader_init queue_temp_read
  split <;> rfl


/-! ## Runs -/

theorem invoke_all_nil (fuel : Nat) (s : State) : invoke_all fuel s [] = .ok (s, []) := by
  rw [invoke_all]

theorem invoke_all_cons (fuel : Nat) (s : State) (inv : Invocation)
    (invs : List Invocation) :
    invoke_all fuel s (inv :: invs) =
      (invoke fuel s inv).bind (fun r1 =>
        (invoke_all fuel r1.1 invs).bind (fun r2 => .ok (r2.1, r1.2 ++ r2.2))) := by
  rw [invoke_all]; rfl

theorem system_run_eq (fuel : Nat) (env0 : SamplerEnv) (s : State)
    (invs : List Invocation) :
    system_run fuel env0 s invs =
      (temp_reader_init env0 s).bind (fun r0 =>
        (invoke_all fuel r0.1 invs).bind (fun r1 => .ok (r1.1, r0.2 ++ r1.2))) := by
  rfl

theorem invoke_sampler (fuel : Nat) (s : State) (env : SamplerEnv) :
    invoke fuel s (.sampler env) = temp_read fuel env s := by
  rw [invoke]

theorem invoke_reader (fuel : Nat) (s : State) (append_rc : Nat → Int) (rc0 : Int)
    (om : List Nat) :
    invoke fuel s (.reader append_rc rc0 om) =
      (gatt_svr_chr_access_temp append_rc rc0 s om).bind
        (fun res => .ok (res.state, [])) := by
  rw [invoke]; rfl

/-- Every outcome of one invocation from a cursor in range: one of three faults, none of
them an access outside the array, or completion with the cursor still in range; a sampler
invocation that completes has the effects of `temp_read_shape`, a reader invocation leaves
the shared variables alone and has no sampler effect. -/
theorem invoke_cases (fuel : Nat) (s : State) (inv : Invocation)
    (hc : 0 ≤ s.temp_queue_head ∧ s.temp_queue_head < 16) :
    invoke fuel s inv = .error .assert_failed ∨
    invoke fuel s inv = .error .out_of_fuel ∨
    invoke fuel s inv = .error .unrepresentable ∨
    ∃ s' tr, invoke fuel s inv = .ok (s', tr) ∧
      (0 ≤ s'.temp_queue_head ∧ s'.temp_queue_head < 16) ∧
      ((∃ env v polls, inv = .sampler env ∧ is_int16 v ∧
          (∀ e ∈ polls, ∃ b, e = Effect.datardy_poll b) ∧
          temp_store s v = .ok s' ∧
          tr = Effect.callout_reset (Int.tdiv env.OS_TICKS_PER_SEC TEMP_SAMPLING_RATE) ::
            (polls ++ [Effect.read_raw env.raw, Effect.tasks_start,
              Effect.history_store s.temp_queue_head v,
              Effect.head_store s'.temp_queue_head])) ∨
       (∃ append_rc rc0 om, inv = .reader append_rc rc0 om ∧ s' = s ∧ tr = [])) := by
  cases inv with
  | sampler env =>
    rw [invoke_sampler]
    rcases temp_read_cases fuel env s hc with he | he | he |
      ⟨s', v, polls, hv, _, hpolls, hst, hread⟩
    · left; exact he
    · right; left; exact he
    · right; right; left; exact he
    · right; right; right
      refine ⟨s', _, hread, ?_, Or.inl ⟨env, v, polls, rfl, hv, hpolls, hst, rfl⟩⟩
      have hs := temp_store_ok s v hc
      rw [hst] at hs
      cases hs
      show (0 : Int) ≤ (s.temp_queue_head + 1) % 16 ∧ (s.temp_queue_head + 1) % 16 < 16
      omega
  | reader append_rc rc0 om =>
    obtain ⟨p, hp, _⟩ := walk_ok s.temp_history 10 s.temp_queue_head
    have heq := gatt_svr_chr_access_temp_eq append_rc rc0 s om p hp
    rw [invoke_reader]
    by_cases happ : ∀ i : Fin 10, append_rc i.val = 0
    · rw [if_pos happ] at heq
      right; right; right
      rw [heq]
      exact ⟨s, [], rfl, hc, Or.inr ⟨append_rc, rc0, om, rfl, rfl, rfl⟩⟩
    · rw [if_neg happ] at heq
      left
      rw [heq]
      rfl


theorem last_history_store_append (a b : List Effect) :
    last_history_store (a ++ b) =
      match last_history_store b with
      | some p => some p
      | none => last_history_store a := by
  induction a with
  | nil =>
    rw [List.nil_append]
    cases last_history_store b <;> rfl
  | cons e a ih =>
    have hcons : ∀ l : List Effect, last_history_store (e :: l) =
        match last_history_store l with
        | some p => some p
        | none => stored_by e := fun l => by rw [last_history_store]
    rw [List.cons_append, hcons (a ++ b), ih, hcons a]
    cases last_history_store b with
    | some p => rfl
    | none => rfl

/-- The latest write to the buffer in the effects of a sampler invocation. -/
theorem last_history_store_sampler (pre : List Effect) (slot v h : Int) :
    last_history_store (pre ++ [Effect.history_store slot v, Effect.head_store h]) =
      some (slot, v) := by
  rw [last_history_store_append]
  rfl

theorem last_history_store_shape (r a b : Effect) (polls : List Effect) (slot v h : Int) :
    last_history_store
      (r :: (polls ++ [a, b, Effect.history_store slot v, Effect.head_store h])) =
      some (slot, v) := by
  have hsplit : r :: (polls ++ [a, b, Effect.history_store slot v, Effect.head_store h]) =
      (r :: (polls ++ [a, b])) ++ [Effect.history_store slot v, Effect.head_store h] := by
    simp only [List.cons_append, List.append_assoc, List.nil_append]
  rw [hsplit]
  exact last_history_store_sampler _ _ _ _

/-- Right after a store the slot behind the cursor holds the value stored. -/
theorem temp_store_behind_cursor (s s' : State) (v : Int) (h : temp_store s v = .ok s') :
    (s'.temp_queue_head - 1) % 16 = s.temp_queue_head ∧
    hist_read s'.temp_history ((s'.temp_queue_head - 1) % 16) = .ok v := by
  have hc := temp_store_range s s' v h
  rw [temp_store_ok s v hc] at h
  cases h
  have hb : ((s.temp_queue_head + 1) % 16 - 1) % 16 = s.temp_queue_head := by omega
  refine ⟨hb, ?_⟩
  show hist_read _ (((s.temp_queue_head + 1) % 16 - 1) % 16) = _
  rw [hb]
  exact hist_read_update_same _ _ _ hc

/-- What holds after any completed sequence of invocations from a cursor in range: the
cursor is in range; and either no sampler ran, the variables are as before and no write
to the buffer was made, or the slot behind the cursor holds the value of the latest write
to the buffer.  No sequence faults on an access outside the array. -/
theorem invoke_all_inv (fuel : Nat) (invs : List Invocation) (s : State)
    (hc : 0 ≤ s.temp_queue_head ∧ s.temp_queue_head < 16) :
    invoke_all fuel s invs ≠ .error .out_of_bounds ∧
    ∀ s' tr, invoke_all fuel s invs = .ok (s', tr) →
      (0 ≤ s'.temp_queue_head ∧ s'.temp_queue_head < 16) ∧
      ((sampler_count invs = 0 ∧ s' = s ∧ last_history_store tr = none) ∨
       (0 < sampler_count invs ∧ ∃ v, is_int16 v ∧
          last_history_store tr = some ((s'.temp_queue_head - 1) % 16, v) ∧
          hist_read s'.temp_history ((s'.temp_queue_head - 1) % 16) = .ok v)) := by
  induction invs generalizing s with
  | nil =>
    rw [invoke_all_nil]
    refine ⟨fun h => (by cases h), ?_⟩
    intro s' tr h
    cases h
    exact ⟨hc, Or.inl ⟨rfl, rfl, rfl⟩⟩
  | cons inv invs ih =>
    rw [invoke_all_cons]
    rcases invoke_cases fuel s inv hc with he | he | he | ⟨s1, t1, h1, hc1, hshape⟩
    · rw [he]; exact ⟨fun h => (by cases h), fun _ _ h => (by cases h)⟩
    · rw [he]; exact ⟨fun h => (by cases h), fun _ _ h => (by cases h)⟩
    · rw [he]; exact ⟨fun h => (by cases h), fun _ _ h => (by cases h)⟩
    · rw [h1]
      obtain ⟨hno, hih⟩ := ih s1 hc1
      cases h2 : invoke_all fuel s1 invs with
      | error e =>
        refine ⟨?_, fun _ _ h => (by simp only [Except.bind, h2] at h; cases h)⟩
        intro h
        simp only [Except.bind, h2] at h
        cases h
        exact hno h2
      | ok r2 =>
        obtain ⟨s2, t2⟩ := r2
        refine ⟨fun h => (by simp only [Except.bind, h2] at h; cases h), ?_⟩
        intro s' tr h
        simp only [Except.bind, h2] at h
        cases h
        obtain ⟨hc2, hlast⟩ := hih s2 t2 h2
        refine ⟨hc2, ?_⟩
        rcases hshape with ⟨env, v, polls, hinv, hv, _, hst, ht1⟩ |
          ⟨append_rc, rc0, om, hinv, hs1, ht1⟩
        · right
          subst hinv
          refine ⟨Nat.succ_pos _, ?_⟩
          rcases hlast with ⟨_, hs2, hnone⟩ | ⟨_, w, hw, hl, hr⟩
          · subst hs2
            obtain ⟨hb, hread⟩ := temp_store_behind_cursor s s2 v hst
            refine ⟨v, hv, ?_, hread⟩
            rw [last_history_store_append, hnone, ht1, hb]
            exact last_history_store_shape _ _ _ _ _ _ _
          · refine ⟨w, hw, ?_, hr⟩
            rw [last_history_store_append, hl]
        · subst hinv
          subst hs1
          subst ht1
          rcases hlast with ⟨hcount, hs2, hnone⟩ | ⟨hcount, w, hw, hl, hr⟩
          · left
            exact ⟨hcount, hs2, by rw [List.nil_append]; exact hnone⟩
          · right
            exact ⟨hcount, w, hw, by rw [List.nil_append]; exact hl, hr⟩


/-- The conversion effects of a completed sampler invocation: the raw read, then the start
command. -/
theorem temp_read_conversion_effects (fuel : Nat) (env : SamplerEnv) (s s' : State)
    (tr : List Effect) (h : temp_read fuel env s = .ok (s', tr)) :
    tr.filter is_conversion_effect = [Effect.read_raw env.raw, Effect.tasks_start] := by
  obtain ⟨v, polls, _, hpolls, _, _, htr⟩ := temp_read_shape fuel env s s' tr h
  rw [htr, List.filter_cons_of_neg (by simp [is_conversion_effect]), List.filter_append,
    filter_polls is_conversion_effect polls (fun _ => rfl) hpolls]
  rfl

/-- The conversion effects of a completed sequence of sampler invocations. -/
theorem invoke_all_conversion_effects (fuel : Nat) (envs : List SamplerEnv) (s s' : State)
    (tr : List Effect)
    (h : invoke_all fuel s (envs.map Invocation.sampler) = .ok (s', tr)) :
    tr.filter is_conversion_effect =
      envs.flatMap (fun env => [Effect.read_raw env.raw, Effect.tasks_start]) := by
  induction envs generalizing s tr with
  | nil =>
    rw [List.map_nil, invoke_all_nil] at h
    cases h
    rfl
  | cons env envs ih =>
    rw [List.map_cons, invoke_all_cons, invoke_sampler] at h
    cases h1 : temp_read fuel env s with
    | error e => rw [h1] at h; cases h
    | ok r1 =>
      obtain ⟨s1, t1⟩ := r1
      rw [h1] at h
      cases h2 : invoke_all fuel s1 (envs.map Invocation.sampler) with
      | error e => simp only [Except.bind, h2] at h; cases h
      | ok r2 =>
        obtain ⟨s2, t2⟩ := r2
        simp only [Except.bind, h2] at h
        cases h
        rw [List.filter_append, temp_read_conversion_effects fuel env s s1 t1 h1,
          ih s1 t2 h2, List.flatMap_cons]

/-- What holds after any completed run of the system: see `invoke_all_inv`. -/
theorem system_run_inv (fuel : Nat) (env0 : SamplerEnv) (s : State)
    (invs : List Invocation) :
    system_run fuel env0 s invs ≠ .error .out_of_bounds ∧
    ∀ s' tr, system_run fuel env0 s invs = .ok (s', tr) →
      (0 ≤ s'.temp_queue_head ∧ s'.temp_queue_head < 16) ∧
      ((sampler_count invs = 0 ∧ s'.temp_queue_head = 0 ∧ s'.temp_history = s.temp_history ∧
          last_history_store tr = none) ∨
       (0 < sampler_count invs ∧ ∃ v, is_int16 v ∧
          last_history_store tr = some ((s'.temp_queue_head - 1) % 16, v) ∧
          hist_read s'.temp_history ((s'.temp_queue_head - 1) % 16) = .ok v)) := by
  rw [system_run_eq, temp_reader_init_eq]
  by_cases hrc : env0.reset_rc = 0
  · rw [if_pos hrc]
    obtain ⟨hno, hinv⟩ := invoke_all_inv fuel invs
      { temp_queue_head := 0, temp_history := s.temp_history }
      (by show (0 : Int) ≤ 0 ∧ (0 : Int) < 16; decide)
    cases h1 : invoke_all fuel { temp_queue_head := 0, temp_history := s.temp_history } invs with
    | error e =>
      refine ⟨?_, fun _ _ h => (by simp only [Except.bind, h1] at h; cases h)⟩
      intro h
      simp only [Except.bind, h1] at h
      cases h
      exact hno h1
    | ok r1 =>
      obtain ⟨s1, t1⟩ := r1
      refine ⟨fun h => (by simp only [Except.bind, h1] at h; cases h), ?_⟩
      intro s' tr h
      simp only [Except.bind, h1] at h
      cases h
      obtain ⟨hc1, hlast⟩ := hinv s1 t1 h1
      refine ⟨hc1, ?_⟩
      rcases hlast with ⟨hcount, hs1, hnone⟩ | ⟨hcount, v, hv, hl, hr⟩
      · left
        subst hs1
        exact ⟨hcount, rfl, rfl, by rw [last_history_store_append, hnone]; rfl⟩
      · right
        exact ⟨hcount, v, hv, by rw [last_history_store_append, hl], hr⟩
  · rw [if_neg hrc]
    exact ⟨fun h => (by cases h), fun _ _ h => (by cases h)⟩

/-- A sequence of invocations completes when, for every sampler invocation, the timer
accepts the re-arm, the reading scales into `int16_t` and the hardware signals completion
within the fuel, and, for every reader invocation, the ten appends succeed. -/
theorem invoke_all_ok (fuel : Nat) (invs : List Invocation) (s : State)
    (hc : 0 ≤ s.temp_queue_head ∧ s.temp_queue_head < 16)
    (hgood : ∀ inv ∈ invs,
      (∃ env, inv = .sampler env ∧ env.reset_rc = 0 ∧
        (-32768 ≤ 25 * env.raw ∧ 25 * env.raw ≤ 32767) ∧
        ∃ j, j < fuel ∧ env.datardy j = true) ∨
      (∃ append_rc rc0 om, inv = .reader append_rc rc0 om ∧
        ∀ i : Fin 10, append_rc i.val = 0)) :
    ∃ s' tr, invoke_all fuel s invs = .ok (s', tr) := by
  induction invs generalizing s with
  | nil => exact ⟨s, [], invoke_all_nil fuel s⟩
  | cons inv invs ih =>
    have hstep : ∃ s1 t1, invoke fuel s inv = .ok (s1, t1) ∧
        (0 ≤ s1.temp_queue_head ∧ s1.temp_queue_head < 16) := by
      rcases hgood inv (List.mem_cons_self inv invs) with
        ⟨env, hinv, hrc, hr, hrdy⟩ | ⟨append_rc, rc0, om, hinv, happ⟩
      · subst hinv
        obtain ⟨s1, _, _, _, hread⟩ := temp_read_ok fuel env s hrc hr hrdy hc
        rcases invoke_cases fuel s (.sampler env) hc with he | he | he | ⟨s2, t2, h2, hc2, _⟩
        · rw [invoke_sampler, hread] at he; cases he
        · rw [invoke_sampler, hread] at he; cases he
        · rw [invoke_sampler, hread] at he; cases he
        · exact ⟨s2, t2, h2, hc2⟩
      · subst hinv
        obtain ⟨p, hp, _⟩ := walk_ok s.temp_history 10 s.temp_queue_head
        refine ⟨s, [], ?_, hc⟩
        rw [invoke_reader, gatt_svr_chr_access_temp_eq append_rc rc0 s om p hp, if_pos happ]
        rfl
    obtain ⟨s1, t1, h1, hc1⟩ := hstep
    obtain ⟨s2, t2, h2⟩ := ih s1 hc1 (fun i hi => hgood i (List.mem_cons_of_mem inv hi))
    refine ⟨s2, t1 ++ t2, ?_⟩
    rw [invoke_all_cons, h1]
    simp only [Except.bind, h2]

/-- A run of the system completes under the conditions of `invoke_all_ok` when the timer
also accepts the re-arm made at initialisation. -/
theorem system_run_ok (fuel : Nat) (env0 : SamplerEnv) (s : State) (invs : List Invocation)
    (hrc : env0.reset_rc = 0)
    (hgood : ∀ inv ∈ invs,
      (∃ env, inv = .sampler env ∧ env.reset_rc = 0 ∧
        (-32768 ≤ 25 * env.raw ∧ 25 * env.raw ≤ 32767) ∧
        ∃ j, j < fuel ∧ env.datardy j = true) ∨
      (∃ append_rc rc0 om, inv = .reader append_rc rc0 om ∧
        ∀ i : Fin 10, append_rc i.val = 0)) :
    ∃ s' tr, system_run fuel env0 s invs = .ok (s', tr) := by
  obtain ⟨s1, t1, h1⟩ := invoke_all_ok fuel invs
    { temp_queue_head := 0, temp_history := s.temp_history }
    (by show (0 : Int) ≤ 0 ∧ (0 : Int) < 16; decide) hgood
  rw [system_run_eq, temp_reader_init_eq, if_pos hrc]
  simp only [Except.bind, h1]
  exact ⟨_, _, rfl⟩


/-! ## Reading before the buffer is full -/

/-- After the writes `vs`, a walk of `n ≤ 16` slots reads the last values written, latest
first, and then, if `n` exceeds their number, what the walk read before the writes. -/
theorem snapshot_after_writes_rest (vs : List Int) (s : State) (n : Nat)
    (hc : 0 ≤ s.temp_queue_head ∧ s.temp_queue_head < 16) (hn : n ≤ 16) :
    ∃ s' r, temp_store_all s vs = .ok s' ∧ snapshot s (n - vs.length) = .ok r ∧
      snapshot s' n = .ok (vs.reverse.take n ++ r) := by
  induction vs using List.reverseRecOn generalizing n with
  | nil =>
    obtain ⟨r, hr, _⟩ := walk_ok s.temp_history n s.temp_queue_head
    refine ⟨s, r, temp_store_all_nil s, hr, ?_⟩
    rw [List.reverse_nil, List.take_nil, List.nil_append]
    exact hr
  | append_singleton xs v ih =>
    obtain ⟨s1, hs1, hh1⟩ := temp_store_all_head xs s hc
    have hc1 : 0 ≤ s1.temp_queue_head ∧ s1.temp_queue_head < 16 := by rw [hh1]; omega
    obtain ⟨s2, hs2⟩ : ∃ s2, temp_store s1 v = .ok s2 := ⟨_, temp_store_ok s1 v hc1⟩
    have hall : temp_store_all s (xs ++ [v]) = .ok s2 := by
      rw [temp_store_all_append, hs1]; exact hs2
    cases n with
    | zero =>
      exact ⟨s2, [], hall, by rw [Nat.zero_sub]; exact snapshot_zero s,
        by rw [snapshot_zero]; rfl⟩
    | succ m =>
      obtain ⟨s1', r, hs1', hr, hsnap⟩ := ih m (by omega)
      rw [hs1] at hs1'
      cases hs1'
      refine ⟨s2, r, hall, ?_, ?_⟩
      · rw [List.length_append, List.length_singleton, Nat.add_sub_add_right]
        exact hr
      · rw [snapshot_after_store s1 s2 v m hc1 (by omega) hs2 _ hsnap]
        simp

set_option maxRecDepth 20000 in
/-- From cursor 0 the walk reads slots 15, 14, ..., 6 in that order. -/
theorem walk_from_zero (hist : Fin TEMP_HIST_SIZE → Int) (k : Nat) (hk : k ≤ 10) :
    walk hist 0 k =
      .ok ((([15, 14, 13, 12, 11, 10, 9, 8, 7, 6] : List (Fin TEMP_HIST_SIZE)).take k).map
        hist) := by
  interval_cases k <;> rfl


/-- C12, as the sentence stands: at the tick rate 128 the timer is re-armed for 12 ticks,
and 12 times 10 is not 128. -/
theorem rearm_interval_not_a_tenth :
    queue_temp_read (env_ready 128 0) = .ok [Effect.callout_reset 12] ∧
    (12 : Int) * 10 ≠ 128 :=
  ⟨rfl, by decide⟩

/-- The re-arm of a completed sampler invocation. -/
theorem temp_read_callout_resets (fuel : Nat) (env : SamplerEnv) (s s' : State)
    (tr : List Effect) (h : temp_read fuel env s = .ok (s', tr)) :
    tr.filter is_callout_reset =
      [Effect.callout_reset (Int.tdiv env.OS_TICKS_PER_SEC TEMP_SAMPLING_RATE)] := by
  obtain ⟨v, polls, _, hpolls, _, _, htr⟩ := temp_read_shape fuel env s s' tr h
  rw [htr, List.filter_cons_of_pos (by rfl), List.filter_append,
    filter_polls is_callout_reset polls (fun _ => rfl) hpolls]
  rfl

/-- C12, amended: when the timer accepts the re-arm, `queue_temp_read` re-arms it for the
quotient of the tick rate `T` by the sampling rate 10, truncated to whole ticks; ten such
intervals make `T` exactly when 10 divides `T`, and for other `T ≥ 0` fall short of `T` by
`T mod 10` ticks; the same interval is the one re-arm of the initialisation and the one
re-arm of every completed sampler invocation. -/
theorem rearm_interval (env : SamplerEnv) (hrc : env.reset_rc = 0) :
    TEMP_SAMPLING_RATE = 10 ∧
    queue_temp_read env = .ok [Effect.callout_reset (Int.tdiv env.OS_TICKS_PER_SEC 10)] ∧
    Int.tdiv env.OS_TICKS_PER_SEC 10 * 10 + Int.tmod env.OS_TICKS_PER_SEC 10 =
      env.OS_TICKS_PER_SEC ∧
    (env.OS_TICKS_PER_SEC % 10 = 0 →
      Int.tdiv env.OS_TICKS_PER_SEC 10 * 10 = env.OS_TICKS_PER_SEC) ∧
    (0 ≤ env.OS_TICKS_PER_SEC →
      Int.tdiv env.OS_TICKS_PER_SEC 10 * 10 = env.OS_TICKS_PER_SEC - env.OS_TICKS_PER_SEC % 10) ∧
    (∀ s, ∃ s0 t0, temp_reader_init env s = .ok (s0, t0) ∧
      t0.filter is_callout_reset = [Effect.callout_reset (Int.tdiv env.OS_TICKS_PER_SEC 10)]) ∧
    (∀ fuel s s' tr, temp_read fuel env s = .ok (s', tr) →
      tr.filter is_callout_reset =
        [Effect.callout_reset (Int.tdiv env.OS_TICKS_PER_SEC 10)]) := by
  refine ⟨rfl, ?_, Int.tdiv_add_tmod' _ _, ?_, ?_, ?_, ?_⟩
  · unfold queue_temp_read
    rw [if_pos hrc]
    rfl
  · intro hdvd
    have hd : (10 : Int) ∣ env.OS_TICKS_PER_SEC := Int.dvd_of_emod_eq_zero hdvd
    rw [Int.tdiv_eq_ediv_of_dvd hd]
    omega
  · intro hpos
    rw [Int.tdiv_eq_ediv hpos (by decide)]
    omega
  · intro s
    rw [temp_reader_init_eq, if_pos hrc]
    exact ⟨_, _, rfl, rfl⟩
  · intro fuel s s' tr h
    exact temp_read_callout_resets fuel env s s' tr h

/-- C12, amended, at the tick rate 128: the interval is 12 ticks. -/
theorem rearm_interval_witness :
    queue_temp_read (env_ready 128 100) = .ok [Effect.callout_reset (Int.tdiv 128 10)] ∧
    Int.tdiv 128 10 * 10 = (128 : Int) - 128 % 10 :=
  ⟨(rearm_interval (env_ready 128 100) rfl).2.1,
    (rearm_interval (env_ready 128 100) rfl).2.2.2.2.1 (by decide)⟩


/-- The first sampler invocation on a run without incident, at tick rate 128 with the raw
reading 100, from cursor 0 over a zeroed buffer: its effects in program order. -/
theorem temp_read_example :
    ∃ s', temp_read 1 (env_ready 128 100) { temp_queue_head := 0, temp_history := fun _ => 0 } =
      .ok (s', [Effect.callout_reset 12, Effect.datardy_poll true, Effect.read_raw 100,
        Effect.tasks_start, Effect.history_store 0 2500, Effect.head_store 1]) := by
  obtain ⟨s', polls, hp, hs, hread⟩ := temp_read_ok 1 (env_ready 128 100)
    { temp_queue_head := 0, temp_history := fun _ => 0 } rfl (by decide)
    ⟨0, Nat.zero_lt_one, rfl⟩ (by decide)
  have hpolls : polls = [Effect.datardy_poll true] := by
    have hw : wait_datardy (env_ready 128 100).datardy 1 0 = .ok [Effect.datardy_poll true] :=
      rfl
    rw [hw] at hp
    cases hp
    rfl
  have hhead : s'.temp_queue_head = 1 := by
    rw [temp_store_ok _ _ (by decide)] at hs
    cases hs
    rfl
  refine ⟨s', ?_⟩
  rw [hread, hpolls, hhead]
  rfl

/-- C14, as the sentence stands: in the first sampler invocation of a run without incident
the start command is the fourth effect and the write to `temp_history` the fifth, so the
write does not precede the start command. -/
theorem store_does_not_precede_start :
    ∃ s' tr,
      temp_read 1 (env_ready 128 100) { temp_queue_head := 0, temp_history := fun _ => 0 } =
        .ok (s', tr) ∧
      tr = [Effect.callout_reset 12, Effect.datardy_poll true, Effect.read_raw 100,
        Effect.tasks_start, Effect.history_store 0 2500, Effect.head_store 1] ∧
      tr.filter is_start_or_store = [Effect.tasks_start, Effect.history_store 0 2500] ∧
      tr.filter is_start_or_store ≠ [Effect.history_store 0 2500, Effect.tasks_start] := by
  obtain ⟨s', h⟩ := temp_read_example
  exact ⟨s', _, h, rfl, rfl, by decide⟩

/-- C14, amended: in every completed sampler invocation the start command for the next
conversion is issued first, right after the raw read, and the write of the converted
sample to `temp_history` follows it immediately; there is one of each. -/
theorem start_precedes_store (fuel : Nat) (env : SamplerEnv) (s s' : State)
    (tr : List Effect) (h : temp_read fuel env s = .ok (s', tr)) :
    ∃ v front, is_int16 v ∧ scale_raw env.raw = .ok v ∧
      tr = front ++ [Effect.read_raw env.raw, Effect.tasks_start,
        Effect.history_store s.temp_queue_head v, Effect.head_store s'.temp_queue_head] ∧
      front.filter is_start_or_store = [] ∧
      tr.filter is_start_or_store =
        [Effect.tasks_start, Effect.history_store s.temp_queue_head v] := by
  obtain ⟨v, polls, hv, hpolls, hst, _, htr⟩ := temp_read_shape fuel env s s' tr h
  obtain ⟨w, _, hsc, hst'⟩ := temp_read_inv fuel env s s' tr h
  have hvw : w = v := by
    have hframe1 := temp_store_behind_cursor s s' v hst
    have hframe2 := temp_store_behind_cursor s s' w hst'
    have heq := hframe1.2.symm.trans hframe2.2
    cases heq
    rfl
  subst hvw
  have hfront : (Effect.callout_reset (Int.tdiv env.OS_TICKS_PER_SEC TEMP_SAMPLING_RATE) ::
      polls).filter is_start_or_store = [] := by
    rw [List.filter_cons_of_neg (by simp [is_start_or_store]),
      filter_polls is_start_or_store polls (fun _ => rfl) hpolls]
  refine ⟨w, Effect.callout_reset (Int.tdiv env.OS_TICKS_PER_SEC TEMP_SAMPLING_RATE) :: polls,
    hv, hsc, ?_, hfront, ?_⟩
  · rw [htr, List.cons_append]
  · rw [htr, ← List.cons_append, List.filter_append, hfront]
    rfl

/-- C14, amended, on the first sampler invocation of a run without incident. -/
theorem start_precedes_store_witness :
    ∃ s' tr,
      temp_read 1 (env_ready 128 100) { temp_queue_head := 0, temp_history := fun _ => 0 } =
        .ok (s', tr) ∧
      ∃ v, tr.filter is_start_or_store = [Effect.tasks_start, Effect.history_store 0 v] := by
  obtain ⟨s', h⟩ := temp_read_example
  obtain ⟨v, _, _, _, _, _, hfilter⟩ := start_precedes_store 1 (env_ready 128 100)
    { temp_queue_head := 0, temp_history := fun _ => 0 } s' _ h
  exact ⟨s', _, h, v, hfilter⟩

/-- C15: in every completed sampler invocation the timer re-arm is the first effect and the
only re-arm; the polls of the data-ready flag, the raw read, the start command, the write
to the buffer and the write to the cursor all come after it, in that order. -/
theorem rearm_is_first_effect (fuel : Nat) (env : SamplerEnv) (s s' : State)
    (tr : List Effect) (h : temp_read fuel env s = .ok (s', tr)) :
    ∃ v polls rest, (∀ e ∈ polls, ∃ b, e = Effect.datardy_poll b) ∧
      rest = polls ++ [Effect.read_raw env.raw, Effect.tasks_start,
        Effect.history_store s.temp_queue_head v, Effect.head_store s'.temp_queue_head] ∧
      tr = Effect.callout_reset (Int.tdiv env.OS_TICKS_PER_SEC TEMP_SAMPLING_RATE) :: rest ∧
      tr.head? =
        some (Effect.callout_reset (Int.tdiv env.OS_TICKS_PER_SEC TEMP_SAMPLING_RATE)) ∧
      rest.filter is_callout_reset = [] := by
  obtain ⟨v, polls, _, hpolls, _, _, htr⟩ := temp_read_shape fuel env s s' tr h
  refine ⟨v, polls, _, hpolls, rfl, htr, by rw [htr]; rfl, ?_⟩
  rw [List.filter_append, filter_polls is_callout_reset polls (fun _ => rfl) hpolls]
  rfl

/-- C15 on the first sampler invocation of a run without incident. -/
theorem rearm_is_first_effect_witness :
    ∃ s' tr,
      temp_read 1 (env_ready 128 100) { temp_queue_head := 0, temp_history := fun _ => 0 } =
        .ok (s', tr) ∧
      tr.head? = some (Effect.callout_reset (Int.tdiv 128 TEMP_SAMPLING_RATE)) := by
  obtain ⟨s', h⟩ := temp_read_example
  obtain ⟨_, _, _, _, _, _, hhead, _⟩ := rearm_is_first_effect 1 (env_ready 128 100)
    { temp_queue_head := 0, temp_history := fun _ => 0 } s' _ h
  exact ⟨s', _, h, hhead⟩


/-- Counting in the alternating list of raw reads and start commands. -/
theorem alternation_counts (envs : List SamplerEnv) :
    ((envs.flatMap (fun env => [Effect.read_raw env.raw, Effect.tasks_start])).filter
      is_read_raw).length = envs.length ∧
    ((envs.flatMap (fun env => [Effect.read_raw env.raw, Effect.tasks_start])).filter
      is_tasks_start).length = envs.length := by
  induction envs with
  | nil => exact ⟨rfl, rfl⟩
  | cons env envs ih =>
    rw [List.flatMap_cons, List.filter_append, List.filter_append, List.length_append,
      List.length_append, ih.1, ih.2]
    constructor
    · show 1 + envs.length = (env :: envs).length
      rw [List.length_cons]; omega
    · show 1 + envs.length = (env :: envs).length
      rw [List.length_cons]; omega

theorem filter_read_raw_conversion (tr : List Effect) :
    tr.filter is_read_raw = (tr.filter is_conversion_effect).filter is_read_raw := by
  rw [List.filter_filter]
  congr 1
  funext e
  cases e <;> rfl

theorem filter_tasks_start_conversion (tr : List Effect) :
    tr.filter is_tasks_start = (tr.filter is_conversion_effect).filter is_tasks_start := by
  rw [List.filter_filter]
  congr 1
  funext e
  cases e <;> rfl

/-- C16: in every completed run of `temp_reader_init` followed by `n` sampler invocations,
the raw reads and start commands of the trace are the start issued by the initialisation
followed, for each invocation in turn, by its raw read and then its start command: they
alternate beginning with a start, with `n` reads and `n + 1` starts. -/
theorem conversion_starts_and_reads_alternate (fuel : Nat) (env0 : SamplerEnv) (s s' : State)
    (envs : List SamplerEnv) (tr : List Effect)
    (h : system_run fuel env0 s (envs.map Invocation.sampler) = .ok (s', tr)) :
    (∃ s0 t0, temp_reader_init env0 s = .ok (s0, t0) ∧
      t0.filter is_conversion_effect = [Effect.tasks_start]) ∧
    tr.filter is_conversion_effect =
      Effect.tasks_start ::
        envs.flatMap (fun env => [Effect.read_raw env.raw, Effect.tasks_start]) ∧
    (tr.filter is_read_raw).length = envs.length ∧
    (tr.filter is_tasks_start).length = envs.length + 1 := by
  rw [system_run_eq, temp_reader_init_eq] at h
  by_cases hrc : env0.reset_rc = 0
  · rw [if_pos hrc] at h
    cases h1 : invoke_all fuel { temp_queue_head := 0, temp_history := s.temp_history }
        (envs.map Invocation.sampler) with
    | error e => simp only [Except.bind, h1] at h; cases h
    | ok r1 =>
      obtain ⟨s1, t1⟩ := r1
      simp only [Except.bind, h1] at h
      cases h
      have hconv := invoke_all_conversion_effects fuel envs _ _ _ h1
      have hall : ([Effect.head_store 0, Effect.callout_init,
          Effect.callout_reset (Int.tdiv env0.OS_TICKS_PER_SEC TEMP_SAMPLING_RATE),
          Effect.tasks_start] ++ t1).filter is_conversion_effect =
          Effect.tasks_start ::
            envs.flatMap (fun env => [Effect.read_raw env.raw, Effect.tasks_start]) := by
        rw [List.filter_append, hconv]
        rfl
      refine ⟨?_, hall, ?_, ?_⟩
      · rw [temp_reader_init_eq, if_pos hrc]
        exact ⟨_, _, rfl, rfl⟩
      · rw [filter_read_raw_conversion, hall, List.filter_cons_of_neg (by simp [is_read_raw])]
        exact (alternation_counts envs).1
      · rw [filter_tasks_start_conversion, hall, List.filter_cons_of_pos (by rfl),
          List.length_cons, (alternation_counts envs).2]
  · rw [if_neg hrc] at h
    cases h

/-- C16 on a run without incident of the initialisation and two sampler invocations. -/
theorem conversion_starts_and_reads_alternate_witness :
    ∃ s' tr,
      system_run 1 (env_ready 128 0) { temp_queue_head := 7, temp_history := fun _ => 0 }
        ([env_ready 128 100, env_ready 128 101].map Invocation.sampler) = .ok (s', tr) ∧
      tr.filter is_conversion_effect =
        [Effect.tasks_start, Effect.read_raw 100, Effect.tasks_start, Effect.read_raw 101,
          Effect.tasks_start] := by
  obtain ⟨s', tr, h⟩ := system_run_ok 1 (env_ready 128 0)
    { temp_queue_head := 7, temp_history := fun _ => 0 }
    ([env_ready 128 100, env_ready 128 101].map Invocation.sampler) rfl (by
      intro inv hinv
      simp only [List.map_cons, List.map_nil, List.mem_cons, List.mem_singleton,
        List.not_mem_nil, or_false] at hinv
      rcases hinv with hinv | hinv
      · exact Or.inl ⟨_, hinv, rfl, by decide, 0, Nat.zero_lt_one, rfl⟩
      · exact Or.inl ⟨_, hinv, rfl, by decide, 0, Nat.zero_lt_one, rfl⟩)
  exact ⟨s', tr, h, (conversion_starts_and_reads_alternate 1 (env_ready 128 0) _ s'
    [env_ready 128 100, env_ready 128 101] tr h).2.1⟩


/-- C17: after `temp_reader_init` (cursor 0, buffer as found) and `N < 10` writes of
`v1..vN`, the walk of the reader reads 10 values: `[vN, ..., v1]` and then the contents
the buffer had before start-up in slots 15, 14, ..., `N + 6`; the reader appends the bytes
of all ten, with no shortening or masking. -/
theorem reader_before_buffer_is_full (env : SamplerEnv) (s : State) (vs : List Int)
    (append_rc : Nat → Int) (rc0 : Int) (om : List Nat)
    (hrc : env.reset_rc = 0) (hN : vs.length < 10) :
    ∃ s0 t0 s', temp_reader_init env s = .ok (s0, t0) ∧ s0.temp_queue_head = 0 ∧
      s0.temp_history = s.temp_history ∧
      temp_store_all s0 vs = .ok s' ∧
      snapshot s' 10 = .ok (vs.reverse ++
        (([15, 14, 13, 12, 11, 10, 9, 8, 7, 6] : List (Fin TEMP_HIST_SIZE)).take
          (10 - vs.length)).map s.temp_history) ∧
      (vs.reverse ++
        (([15, 14, 13, 12, 11, 10, 9, 8, 7, 6] : List (Fin TEMP_HIST_SIZE)).take
          (10 - vs.length)).map s.temp_history).length = 10 ∧
      gatt_svr_chr_access_temp append_rc rc0 s' om =
        (if ∀ i : Fin 10, append_rc i.val = 0 then
          .ok { rc := 0
                om := om ++ (vs.reverse ++
                  (([15, 14, 13, 12, 11, 10, 9, 8, 7, 6] : List (Fin TEMP_HIST_SIZE)).take
                    (10 - vs.length)).map s.temp_history).flatMap int16_bytes
                state := s' }
        else .error .assert_failed) := by
  obtain ⟨s', r, hs', hr, hsnap⟩ := snapshot_after_writes_rest vs
    { temp_queue_head := 0, temp_history := s.temp_history } 10
    (by show (0 : Int) ≤ 0 ∧ (0 : Int) < 16; decide) (by decide)
  have hr' : r = (([15, 14, 13, 12, 11, 10, 9, 8, 7, 6] : List (Fin TEMP_HIST_SIZE)).take
      (10 - vs.length)).map s.temp_history := by
    have hw := walk_from_zero s.temp_history (10 - vs.length) (Nat.sub_le _ _)
    have hr2 : walk s.temp_history 0 (10 - vs.length) = .ok r := hr
    rw [hw] at hr2
    cases hr2
    rfl
  subst hr'
  have htake : vs.reverse.take 10 = vs.reverse :=
    List.take_of_length_le (by rw [List.length_reverse]; omega)
  rw [htake] at hsnap
  refine ⟨{ temp_queue_head := 0, temp_history := s.temp_history },
    [Effect.head_store 0, Effect.callout_init,
      Effect.callout_reset (Int.tdiv env.OS_TICKS_PER_SEC TEMP_SAMPLING_RATE),
      Effect.tasks_start], s', by rw [temp_reader_init_eq, if_pos hrc], rfl, rfl, hs', hsnap,
    ?_, gatt_svr_chr_access_temp_eq append_rc rc0 s' om _ hsnap⟩
  rw [List.length_append, List.length_reverse, List.length_map, List.length_take]
  simp only [List.length_cons, List.length_nil]
  omega

/-- C17 at a concrete run: three writes after start-up over a buffer holding `-j` in slot
`j`; the report is the three samples and then slots 15 down to 9. -/
theorem reader_before_buffer_is_full_witness :
    ∃ s0 t0 s',
      temp_reader_init (env_ready 128 0)
        { temp_queue_head := 5, temp_history := fun j => -(j.val : Int) } = .ok (s0, t0) ∧
      temp_store_all s0 [2500, 2525, 2550] = .ok s' ∧
      snapshot s' 10 = .ok [2550, 2525, 2500, -15, -14, -13, -12, -11, -10, -9] := by
  obtain ⟨s0, t0, s', hinit, _, _, hs', hsnap, _, _⟩ := reader_before_buffer_is_full
    (env_ready 128 0) { temp_queue_head := 5, temp_history := fun j => -(j.val : Int) }
    [2500, 2525, 2550] (fun _ => 0) 0 [] rfl (by decide)
  exact ⟨s0, t0, s', hinit, hs', hsnap⟩

/-- C13: after any completed run of the system with at least one sampler invocation, the
latest write to the buffer in the trace went to the slot at `(cursor - 1) mod 16` and that
slot still holds the value written; every completed sampler invocation establishes this
for its own write, and a reader invocation that returns leaves the variables, hence the
slot and the cursor, as they were. -/
theorem slot_behind_cursor_holds_latest (fuel : Nat) (env0 : SamplerEnv) (s s' : State)
    (invs : List Invocation) (tr : List Effect)
    (h : system_run fuel env0 s invs = .ok (s', tr)) (hs : 0 < sampler_count invs) :
    (∃ v, is_int16 v ∧
      last_history_store tr = some ((s'.temp_queue_head - 1) % 16, v) ∧
      hist_read s'.temp_history ((s'.temp_queue_head - 1) % 16) = .ok v) ∧
    (∀ fuel1 env s1 s2 t, temp_read fuel1 env s1 = .ok (s2, t) →
      ∃ v, is_int16 v ∧
        last_history_store t = some ((s2.temp_queue_head - 1) % 16, v) ∧
        hist_read s2.temp_history ((s2.temp_queue_head - 1) % 16) = .ok v) ∧
    (∀ append_rc rc0 om res, gatt_svr_chr_access_temp append_rc rc0 s' om = .ok res →
      res.state = s') := by
  refine ⟨?_, ?_, ?_⟩
  · rcases ((system_run_inv fuel env0 s invs).2 s' tr h).2 with ⟨h0, _⟩ | ⟨_, hv⟩
    · omega
    · exact hv
  · intro fuel1 env s1 s2 t ht
    obtain ⟨v, polls, hv, _, hst, _, htr⟩ := temp_read_shape fuel1 env s1 s2 t ht
    obtain ⟨hb, hread⟩ := temp_store_behind_cursor s1 s2 v hst
    refine ⟨v, hv, ?_, hread⟩
    rw [htr, hb]
    exact last_history_store_shape _ _ _ _ _ _ _
  · intro append_rc rc0 om res hres
    exact (access_loop_frame append_rc s' 10 0 s'.temp_queue_head rc0 om res hres).1

/-- C13 on a run without incident: start-up, a sampler invocation, a reader invocation. -/
theorem slot_behind_cursor_holds_latest_witness :
    ∃ s' tr v,
      system_run 1 (env_ready 128 0) { temp_queue_head := 7, temp_history := fun _ => 0 }
        [.sampler (env_ready 128 100), .reader (fun _ => 0) 0 []] = .ok (s', tr) ∧
      last_history_store tr = some ((s'.temp_queue_head - 1) % 16, v) ∧
      hist_read s'.temp_history ((s'.temp_queue_head - 1) % 16) = .ok v := by
  obtain ⟨s', tr, h⟩ := system_run_ok 1 (env_ready 128 0)
    { temp_queue_head := 7, temp_history := fun _ => 0 }
    [.sampler (env_ready 128 100), .reader (fun _ => 0) 0 []] rfl (by
      intro inv hinv
      simp only [List.mem_cons, List.mem_singleton, List.not_mem_nil, or_false] at hinv
      rcases hinv with hinv | hinv
      · exact Or.inl ⟨_, hinv, rfl, by decide, 0, Nat.zero_lt_one, rfl⟩
      · exact Or.inr ⟨_, _, _, hinv, fun _ => rfl⟩)
  obtain ⟨⟨v, _, hl, hr⟩, _, _⟩ := slot_behind_cursor_holds_latest 1 (env_ready 128 0) _ s'
    [.sampler (env_ready 128 100), .reader (fun _ => 0) 0 []] tr h (by decide)
  exact ⟨s', tr, v, h, hl, hr⟩

/-- C18: no run of the system, whatever the sampler and reader invocations after
`temp_reader_init`, faults on an access outside the array, and after every completed run
the cursor satisfies `0 ≤ temp_queue_head < 16`. -/
theorem cursor_stays_in_range (fuel : Nat) (env0 : SamplerEnv) (s : State)
    (invs : List Invocation) :
    system_run fuel env0 s invs ≠ .error .out_of_bounds ∧
    ∀ s' tr, system_run fuel env0 s invs = .ok (s', tr) →
      0 ≤ s'.temp_queue_head ∧ s'.temp_queue_head < 16 :=
  ⟨(system_run_inv fuel env0 s invs).1,
    fun s' tr h => ((system_run_inv fuel env0 s invs).2 s' tr h).1⟩

/-- C19: `gatt_svr_init` returns 0 exactly when both stack calls return 0; when
`ble_gatts_count_cfg` fails it returns that status without calling `ble_gatts_add_svcs`;
when only `ble_gatts_add_svcs` fails it returns that status. -/
theorem gatt_svr_init_status (count_cfg_rc add_svcs_rc : Int) :
    ((gatt_svr_init count_cfg_rc add_svcs_rc).1 = 0 ↔ count_cfg_rc = 0 ∧ add_svcs_rc = 0) ∧
    (count_cfg_rc ≠ 0 → gatt_svr_init count_cfg_rc add_svcs_rc = (count_cfg_rc, false)) ∧
    (count_cfg_rc = 0 → add_svcs_rc ≠ 0 →
      gatt_svr_init count_cfg_rc add_svcs_rc = (add_svcs_rc, true)) ∧
    (count_cfg_rc = 0 → add_svcs_rc = 0 →
      gatt_svr_init count_cfg_rc add_svcs_rc = (0, true)) := by
  unfold gatt_svr_init
  by_cases h1 : count_cfg_rc = 0
  · by_cases h2 : add_svcs_rc = 0
    · simp [h1, h2]
    · simp [h1, h2]
  · simp [h1]


/-! ## The walk with sampler stores in between -/

theorem differing_cons (x y : Int) (xs ys : List Int) :
    differing (x :: xs) (y :: ys) = (if x = y then 0 else 1) + differing xs ys := by
  rw [differing]

theorem differing_self (a : List Int) : differing a a = 0 := by
  induction a with
  | nil => rfl
  | cons x xs ih => rw [differing_cons, if_pos rfl, ih]

end TempHist
